import Mathlib

/-!
# Verification of the pace-note route processor

A shallow embedding of `src/utils/routeProcessor.ts` (class `RouteProcessor`,
the complete variant with instant-turn detection, deduplication and
start/finish assembly), over exact rational arithmetic.

The geometric library primitives used by the source (`turf.distance`,
`turf.bearing`, `Math.sqrt`) are modelled as parameters collected in a `Geo`
structure: every theorem below is proved for all instantiations of those
primitives, and concrete instantiations are supplied where a concrete run of
the pipeline is evaluated.  JavaScript numbers are modelled as `ℚ`.
-/

set_option maxRecDepth 4000000
set_option maxHeartbeats 16000000

set_option allowUnsafeReducibility true
attribute [semireducible] Rat.add Rat.mul Rat.sub Rat.inv

namespace RouteProcessor

/-- Direction of a turn, `'Left' | 'Right'` in the source. -/
inductive Direction where
  | left
  | right
deriving DecidableEq, Repr

/-- The `severity` field of a pace note: either a numeric McRae class or one
of the special string labels used by the source. -/
inductive Severity where
  | num (n : ℤ)
  | hairpin
  | square
  | acute
  | finishLabel
deriving DecidableEq, Repr

/-- The `type` field of a pace note. -/
inductive NoteType where
  | turn
  | specialTurn
  | straight
  | advice
deriving DecidableEq, Repr

/-- Elevation hazards pushed (as strings) by `detectElevationHazards`. -/
inductive Hazard where
  | crest
  | dip
  | jump
deriving DecidableEq, Repr

/-- Advisory strings produced by `generateAdvice` / `createFinishNote`. -/
inductive Advice where
  | caution
  | heavyBraking
  | blind
  | overFinish
deriving DecidableEq, Repr

/-- `'tightens' | 'widens'`. -/
inductive RCType where
  | tightens
  | widens
deriving DecidableEq, Repr

/-- The record returned by `analyzeRadiusChangeInCorner`. -/
structure RadiusChange where
  rcType : RCType
  toSeverity : ℤ
  entryRadius : ℚ
deriving DecidableEq, Repr

/-- Entries of the `modifiers` array: the length-modifier strings, the
radius-change strings, and the `{ type: 'to', to: n }` object. -/
inductive Modifier where
  | long
  | short
  | tightens
  | widens
  | toSev (n : ℤ)
deriving DecidableEq, Repr

/-- `'Long' | 'Short'`. -/
inductive LengthMod where
  | long
  | short
deriving DecidableEq, Repr

/-- A route point (`RoutePoint` in `types/index.ts`): latitude, longitude,
optional elevation and optional cumulative distance. -/
structure RoutePoint where
  lat : ℚ
  lng : ℚ
  elevation : Option ℚ := none
  distance : Option ℚ := none
deriving DecidableEq, Repr

/-- An input route (`Route` in `types/index.ts`). -/
structure Route where
  points : List RoutePoint
  totalDistance : ℚ
  totalTime : ℚ := 0
  bbox : List ℚ := []
deriving DecidableEq, Repr

/-- A pace note, with the fields written by this processor. -/
structure PaceNote where
  position : ℚ
  distance : ℚ
  noteType : NoteType
  direction : Option Direction
  severity : Severity
  turnNumber : ℤ
  modifiers : List Modifier
  hazards : List Hazard
  advice : List Advice
  surface : String
  lengthModifier : Option LengthMod := none
  radiusChange : Option RadiusChange := none
  elevation : Option Hazard := none
  distanceToNext : Option ℚ := none
deriving DecidableEq, Repr

/-- One entry of the curvature profile built by `calculateCurvatureProfile`. -/
structure Sample where
  idx : ℕ
  radius : ℚ
  bearing : ℚ
deriving DecidableEq, Repr

/-- A corner candidate, the record built by `identifySignificantCorners`
and `detectInstantSharpTurns`. -/
structure Corner where
  startIdx : ℕ
  endIdx : ℕ
  position : ℚ
  totalAngle : ℚ
  direction : Direction
  avgRadius : ℚ
deriving DecidableEq, Repr

/-- The geometric primitives the source takes from external libraries:
`turf.distance` and `turf.bearing` (which read only the coordinates of their
arguments, hence the `ℚ × ℚ` interface), and `Math.sqrt` (`none` models a NaN
result on a negative argument). -/
structure Geo where
  dist : ℚ × ℚ → ℚ × ℚ → ℚ
  bearing : ℚ × ℚ → ℚ × ℚ → ℚ
  sqrt : ℚ → Option ℚ

/-- The coordinate pair of a point, as passed to the turf primitives. -/
def RoutePoint.coord (p : RoutePoint) : ℚ × ℚ := (p.lat, p.lng)

/-- `SEVERITY_THRESHOLDS` from the source: radius upper bounds for the
McRae classes 1–6. -/
def severityThreshold (n : ℤ) : ℚ :=
  if n = 1 then 20
  else if n = 2 then 40
  else if n = 3 then 70
  else if n = 4 then 120
  else if n = 5 then 200
  else 500

/-- `normalizeBearing`: the closed form of the source's two `while` loops
bringing a bearing into `[-180, 180]` by steps of `360` (a value already in
the band, including the endpoints, is returned unchanged). -/
def normalizeBearing (b : ℚ) : ℚ :=
  if b > 180 then b - 360 * ⌈(b - 180) / 360⌉
  else if b < -180 then b + 360 * ⌈(-180 - b) / 360⌉
  else b

/-- `roundDistance`: `Math.round(distance / 10) * 10`; `Math.round` rounds
half-up, i.e. `⌊x + 1/2⌋`. -/
def roundDistance (d : ℚ) : ℚ :=
  (⌊d / 10 + 1 / 2⌋ : ℤ) * 10

/-- `mapRadiusToMcRae`: the numeric McRae class (1–6) of a radius. -/
def mapRadiusToMcRae (radius : ℚ) : ℤ :=
  if radius < severityThreshold 1 then 1
  else if radius < severityThreshold 2 then 2
  else if radius < severityThreshold 3 then 3
  else if radius < severityThreshold 4 then 4
  else if radius < severityThreshold 5 then 5
  else 6

/-- `severityStringToNumber`: legacy numeric value of a special label. -/
def severityStringToNumber : Severity → ℤ
  | .hairpin => 1
  | .square => 2
  | .acute => 2
  | _ => 3

/-- The numeric value the source stores in `turnNumber`:
the severity itself when numeric, else `severityStringToNumber`. -/
def severityNumeric : Severity → ℤ
  | .num n => n
  | s => severityStringToNumber s

/-- `determineSeverityAndType`: special labels first (Square, then Hairpin,
then Acute), then the numeric McRae class from the radius. -/
def determineSeverityAndType (radius totalAngle : ℚ) : Severity × NoteType :=
  if 75 ≤ totalAngle ∧ totalAngle ≤ 105 ∧ radius < 70 then (.square, .specialTurn)
  else if 150 ≤ totalAngle ∧ totalAngle ≤ 180 ∧ radius < 40 then (.hairpin, .specialTurn)
  else if totalAngle < 60 ∧ totalAngle > 25 ∧ radius < 50 then (.acute, .specialTurn)
  else (.num (mapRadiusToMcRae radius), .turn)

/-- `getLengthModifier`: angle above 110° is `Long`, below 35° is `Short`. -/
def getLengthModifier (totalAngle : ℚ) : Option LengthMod :=
  if totalAngle > 110 then some .long
  else if totalAngle < 35 then some .short
  else none

/-- `generateAdvice`: Caution for numeric severity ≤ 2 or Hairpin; Heavy
Braking for a Jump, else Blind for a Crest. -/
def generateAdvice (severity : Severity) (radius : ℚ) (hazards : List Hazard) :
    List Advice :=
  let _ := radius
  let caution : List Advice :=
    match severity with
    | .num n => if n ≤ 2 then [.caution] else []
    | .hairpin => [.caution]
    | _ => []
  caution ++
    (if hazards.contains .jump then [.heavyBraking]
     else if hazards.contains .crest then [.blind]
     else [])

/-! ## Curvature profile -/
/-- `points[i]` with the JS out-of-bounds accesses (which never occur on the
in-range indices the source uses) mapped to a default point. -/
def getPt (points : List RoutePoint) (i : ℕ) : RoutePoint :=
  points.getD i ⟨0, 0, none, none⟩

/-- The default sample used for out-of-range profile accesses. -/
def defaultSample : Sample := ⟨0, 0, 0⟩

/-- `calculateCircumradius`: triangle side lengths from `turf.distance`,
Heron's formula through `Math.sqrt` (`none` models NaN), `null` on a
degenerate (zero-area) triangle, else `R = abc / (4·Area)`. -/
def calculateCircumradius (geo : Geo) (p1 p2 p3 : RoutePoint) : Option ℚ :=
  let a := geo.dist p1.coord p2.coord
  let b := geo.dist p2.coord p3.coord
  let c := geo.dist p3.coord p1.coord
  let s := (a + b + c) / 2
  match geo.sqrt (s * (s - a) * (s - b) * (s - c)) with
  | none => none
  | some area => if area = 0 then none else some (a * b * c / (4 * area))

/-- The window sizes (meters) used by `calculateCurvatureProfile`. -/
def windowSizes : List ℚ := [5, 10, 15, 20]

/-- One window's circumradius estimate at point `i`: window size converted to
a sample count (`Math.floor(w / 3)`), indices clamped to the array, and the
window skipped (`none`) when fewer than 2 samples separate the clamped
endpoints. -/
def windowCircumradius (geo : Geo) (points : List RoutePoint) (i : ℕ) (w : ℚ) :
    Option ℚ :=
  let windowPoints := (⌊w / 3⌋).toNat
  let before := i - windowPoints
  let after := min (points.length - 1) (i + windowPoints)
  if 2 ≤ after - before then
    calculateCircumradius geo (getPt points before) (getPt points i) (getPt points after)
  else none

/-- The loop body of the `radii` collection: push the window's estimate only
when it is strictly between 0 and 2000. -/
def candStep (geo : Geo) (points : List RoutePoint) (i : ℕ)
    (radii : List ℚ) (w : ℚ) : List ℚ :=
  match windowCircumradius geo points i w with
  | some radius => if 0 < radius ∧ radius < 2000 then radii ++ [radius] else radii
  | none => radii

/-- The `radii` array collected at point `i`. -/
def curvatureRadiusCandidates (geo : Geo) (points : List RoutePoint) (i : ℕ) :
    List ℚ :=
  windowSizes.foldl (candStep geo points i) []

/-- The final radius at point `i`: `Math.min(...radii)` when any candidate
survived, else the straight sentinel `9999`. -/
def pointRadius (geo : Geo) (points : List RoutePoint) (i : ℕ) : ℚ :=
  match curvatureRadiusCandidates geo points i with
  | [] => 9999
  | r :: rs => rs.foldl min r

/-- The bearing at point `i`: toward point `i+1`, `0` at the last point. -/
def pointBearing (geo : Geo) (points : List RoutePoint) (i : ℕ) : ℚ :=
  if i + 1 < points.length then
    geo.bearing (getPt points i).coord (getPt points (i + 1)).coord
  else 0

/-- `calculateCurvatureProfile`: one sample per point. -/
def calculateCurvatureProfile (geo : Geo) (points : List RoutePoint) :
    List Sample :=
  (List.range points.length).map fun i =>
    { idx := i, radius := pointRadius geo points i, bearing := pointBearing geo points i }

/-- Witness for C7: a concrete geometry (all distances 1, unit square-root,
straight bearings) on a 7-point route, evaluated at point 3. -/
def witnessGeoC7 : Geo where
  dist := fun p q => if p = q then 0 else 20
  bearing := fun _ _ => 0
  sqrt := fun x => if x < 0 then none else some 1

/-- A 7-point list used by concrete profile evaluations. -/
def witnessPoints7 : List RoutePoint :=
  (List.range 7).map fun i => { lat := (i : ℚ), lng := 0 }

/-! ## Radius-change analysis (`analyzeRadiusChangeInCorner`) -/
/-- The direction encoded by the sign of a turn value (`< 0` is Left). -/
def turnSign (q : ℚ) : Direction :=
  if q < 0 then .left else .right

/-- `startTurnDirection`: bearing over the first few points relative to the
overall chord bearing of the segment. -/
def rcStartTurn (geo : Geo) (points : List RoutePoint) : ℚ :=
  let startBearing :=
    geo.bearing (getPt points 0).coord (getPt points (min 3 (points.length - 1))).coord
  let overallBearing :=
    geo.bearing (getPt points 0).coord (getPt points (points.length - 1)).coord
  normalizeBearing (startBearing - overallBearing)

/-- `endTurnDirection`: bearing over the last few points relative to the
overall chord bearing of the segment. -/
def rcEndTurn (geo : Geo) (points : List RoutePoint) : ℚ :=
  let endBearing :=
    geo.bearing (getPt points (points.length - 4)).coord
      (getPt points (points.length - 1)).coord
  let overallBearing :=
    geo.bearing (getPt points 0).coord (getPt points (points.length - 1)).coord
  normalizeBearing (endBearing - overallBearing)

/-- The safety check of `analyzeRadiusChangeInCorner`: the start and end
turn directions disagree and both are more than 5° away from the chord. -/
def rcInconsistent (geo : Geo) (points : List RoutePoint) : Bool :=
  decide (turnSign (rcStartTurn geo points) ≠ turnSign (rcEndTurn geo points) ∧
    5 < |rcStartTurn geo points| ∧ 5 < |rcEndTurn geo points|)

/-- The radii sampled inside the corner: circumradius over `(i-2, i, i+2)`
for `i = 2, 4, …` below `length - 2`, kept when strictly between 0 and
1000. -/
def rcSampledRadii (geo : Geo) (points : List RoutePoint) : List ℚ :=
  ((List.range points.length).filter fun i =>
      decide (2 ≤ i ∧ i % 2 = 0 ∧ i + 2 < points.length)).filterMap fun i =>
    match calculateCircumradius geo (getPt points (i - 2)) (getPt points i)
        (getPt points (i + 2)) with
    | some r => if 0 < r ∧ r < 1000 then some r else none
    | none => none

/-- `sum / length`, the average used for the first/last thirds. -/
def listAvg (l : List ℚ) : ℚ := l.sum / l.length

/-- Average radius of the first third of the sampled radii. -/
def rcFirstAvg (geo : Geo) (points : List RoutePoint) : ℚ :=
  let radii := rcSampledRadii geo points
  listAvg (radii.take (radii.length / 3))

/-- Average radius of the last third of the sampled radii (`slice(-n)`). -/
def rcLastAvg (geo : Geo) (points : List RoutePoint) : ℚ :=
  let radii := rcSampledRadii geo points
  listAvg (radii.drop (radii.length - radii.length / 3))

/-- The relative change `(lastAvg - firstAvg) / firstAvg`. -/
def rcChange (geo : Geo) (points : List RoutePoint) : ℚ :=
  (rcLastAvg geo points - rcFirstAvg geo points) / rcFirstAvg geo points

/-- `analyzeRadiusChangeInCorner`: `none` for short slices, on the direction
safety check, or with fewer than 3 valid sampled radii; otherwise a strict
20% decrease of the thirds averages is `tightens`, a strict 20% increase is
`widens`, anything else reports no change. -/
def analyzeRadiusChangeInCorner (geo : Geo) (points : List RoutePoint) :
    Option RadiusChange :=
  if points.length < 9 then none
  else if rcInconsistent geo points then none
  else if (rcSampledRadii geo points).length < 3 then none
  else if rcChange geo points < -(1 / 5) then
    some ⟨.tightens, mapRadiusToMcRae (rcLastAvg geo points), rcFirstAvg geo points⟩
  else if rcChange geo points > 1 / 5 then
    some ⟨.widens, mapRadiusToMcRae (rcLastAvg geo points), rcFirstAvg geo points⟩
  else none

/-! ## Elevation hazards, turn-in search, corner analysis -/
/-- `Math.max(...)` over a list (the source only applies it to nonempty
elevation arrays). -/
def listMax : List ℚ → ℚ
  | [] => 0
  | x :: xs => xs.foldl max x

/-- `Math.min(...)` over a list. -/
def listMin : List ℚ → ℚ
  | [] => 0
  | x :: xs => xs.foldl min x

/-- `detectElevationHazards`: Jump for a large range over a short segment,
then Crest for rise-then-fall or a sustained climb, Dip for a sustained
descent. -/
def detectElevationHazards (points : List RoutePoint) : List Hazard :=
  if points.length < 3 then []
  else
    let elevations := points.map fun p => p.elevation.getD 0
    let segmentLength : ℚ := (points.length : ℚ) * 3
    let startElev := elevations.getD 0 0
    let endElev := elevations.getD (elevations.length - 1) 0
    let maxElev := listMax elevations
    let minElev := listMin elevations
    let elevChange := endElev - startElev
    let elevRange := maxElev - minElev
    let normalizedChange := elevChange / segmentLength * 100
    if elevRange > 10 ∧ segmentLength < 50 then [.jump]
    else
      let midIdx := elevations.length / 2
      let firstHalfChange := elevations.getD midIdx 0 - elevations.getD 0 0
      let secondHalfChange :=
        elevations.getD (elevations.length - 1) 0 - elevations.getD midIdx 0
      if firstHalfChange > 3 ∧ secondHalfChange < -3 then [.crest]
      else if normalizedChange > 5 then [.crest]
      else if normalizedChange < -5 then [.dip]
      else []

/-- `findTurnStartPoint`: for tight corners, first sample within 30% of the
minimum radius (the fold starts from a huge stand-in for `Infinity`); for
medium corners, first sample at most 20% above the average; else the window
start. A failed tight scan falls through to the medium branch as in the
source. -/
def findTurnStartPoint (data : List Sample) (startIdx endIdx : ℕ)
    (avgRadius : ℚ) : ℕ :=
  let idxs := List.range' startIdx (endIdx + 1 - startIdx)
  let radiusAt := fun i => (data.getD i defaultSample).radius
  let tight : Option ℕ :=
    if avgRadius < severityThreshold 2 then
      let minRadius := (idxs.map radiusAt).foldl min (10 ^ 9)
      idxs.find? fun i => decide (radiusAt i ≤ minRadius * (13 / 10))
    else none
  match tight with
  | some i => i
  | none =>
    if avgRadius < severityThreshold 4 then
      match idxs.find? fun i => decide (radiusAt i ≤ avgRadius * (6 / 5)) with
      | some i => i
      | none => startIdx
    else startIdx

/-- The modifiers contributed by the length modifier. -/
def lengthModifierList : Option LengthMod → List Modifier
  | some .long => [.long]
  | some .short => [.short]
  | none => []

/-- The modifiers contributed by a radius change: pushed only when the
target severity differs from the note's numeric severity. -/
def radiusChangeModifierList (severity : Severity) :
    Option RadiusChange → List Modifier
  | some rc =>
    if rc.toSeverity ≠ severityNumeric severity then
      [(match rc.rcType with
        | .tightens => Modifier.tightens
        | .widens => Modifier.widens), .toSev rc.toSeverity]
    else []
  | none => []

/-- The slice of resampled points that belongs to a corner. -/
def cornerSlice (corner : Corner) (points : List RoutePoint) : List RoutePoint :=
  (points.drop corner.startIdx).take (corner.endIdx + 1 - corner.startIdx)

/-- `analyzeCorner`: radius-change first, entry radius from it if present,
severity and type, length modifier, elevation hazards, modifiers, advice. -/
def analyzeCorner (geo : Geo) (corner : Corner) (points : List RoutePoint) :
    Option PaceNote :=
  let segmentPoints := cornerSlice corner points
  if segmentPoints.length < 3 then none
  else
    let radiusChange := analyzeRadiusChangeInCorner geo segmentPoints
    let entryRadius :=
      match radiusChange with
      | some rc => rc.entryRadius
      | none => corner.avgRadius
    let st := determineSeverityAndType entryRadius corner.totalAngle
    let lengthModifier := getLengthModifier corner.totalAngle
    let elevationHazards := detectElevationHazards segmentPoints
    some
      { position := roundDistance corner.position
        distance := roundDistance corner.position
        noteType := st.2
        direction := some corner.direction
        severity := st.1
        turnNumber := severityNumeric st.1
        modifiers := lengthModifierList lengthModifier ++
          radiusChangeModifierList st.1 radiusChange
        hazards := elevationHazards
        advice := generateAdvice st.1 corner.avgRadius elevationHazards
        surface := "asphalt"
        lengthModifier := lengthModifier
        radiusChange := radiusChange
        elevation := elevationHazards.head?
        distanceToNext := none }

/-- The entry radius `analyzeCorner` feeds into `determineSeverityAndType`:
the radius-change analysis' entry radius when that analysis succeeds, the
corner's average radius otherwise. -/
def entryRadiusOf (geo : Geo) (corner : Corner) (points : List RoutePoint) : ℚ :=
  match analyzeRadiusChangeInCorner geo (cornerSlice corner points) with
  | some rc => rc.entryRadius
  | none => corner.avgRadius

/-- Witness geometry for C2: bearings make the start turn +30° and the end
turn −30° relative to the chord, an S-shaped slice. -/
def witnessGeoC2 : Geo where
  dist := fun _ _ => 3
  bearing := fun p q =>
    if p = (0, 0) ∧ q = (3, 0) then 30
    else if p = (5, 0) ∧ q = (8, 0) then -30
    else 0
  sqrt := fun x => if x < 0 then none else some 0

/-- A 9-point slice for the C2 witness. -/
def witnessPoints9 : List RoutePoint :=
  (List.range 9).map fun i => { lat := (i : ℚ), lng := 0 }

/-- A corner whose slice is exactly the 9 witness points. -/
def witnessCornerC2 : Corner :=
  { startIdx := 0, endIdx := 8, position := 120, totalAngle := 20
    direction := .left, avgRadius := 30 }

/-! ## C8: the 20% thresholds are strict -/
/-- A geometry under which the three sampled radii of the 9-point slice are
10, 9 and 8: the last-third average (8) is exactly 20% below the first-third
average (10). -/
def witnessGeoC8 : Geo where
  bearing := fun _ _ => 0
  dist := fun p q =>
    let lo := min p.1 q.1
    let hi := max p.1 q.1
    if hi - lo = 2 then 3
    else if lo = 0 ∧ hi = 4 then 4
    else if lo = 2 ∧ hi = 6 then 41 / 10
    else if lo = 4 ∧ hi = 8 then 21 / 5
    else 1
  sqrt := fun x =>
    if x < 0 then none
    else if x = 20 then some (9 / 10)
    else if x = 3225839 / 160000 then some (41 / 40)
    else if x = 202419 / 10000 then some (189 / 160)
    else some 0

/-- The C8 witness geometry: sampled radii 10, 9 and 7, a strict 30%
decrease. -/
def witnessGeoC8w : Geo where
  bearing := fun _ _ => 0
  dist := fun p q =>
    let lo := min p.1 q.1
    let hi := max p.1 q.1
    if hi - lo = 2 then 3
    else if lo = 0 ∧ hi = 4 then 4
    else if lo = 2 ∧ hi = 6 then 41 / 10
    else if lo = 4 ∧ hi = 8 then 21 / 5
    else 1
  sqrt := fun x =>
    if x < 0 then none
    else if x = 20 then some (9 / 10)
    else if x = 3225839 / 160000 then some (41 / 40)
    else if x = 202419 / 10000 then some (27 / 20)
    else some 0

/-! ## Corner segmentation: the sustained-corner state machine -/
/-- The default corner used for out-of-range list accesses. -/
def defaultCorner : Corner := ⟨0, 0, 0, 0, .left, 0⟩

/-- A default pace note for out-of-range list accesses. -/
def defaultNote : PaceNote :=
  { position := 0, distance := 0, noteType := .straight, direction := none
    severity := .num 6, turnNumber := 6, modifiers := [], hazards := []
    advice := [], surface := "asphalt" }

/-- Registration of a corner: reached the (hairpin-aware) minimum total
angle, with the turn-in point search fixing the reported position. -/
def cornerIfSignificant (data : List Sample) (points : List RoutePoint)
    (cornerStart cornerEnd : ℕ) (totalAngle avgRadius : ℚ)
    (direction : Direction) : Option Corner :=
  let minAngle : ℚ := if avgRadius < 50 then 8 else 12
  if minAngle ≤ totalAngle then
    let turnStartIdx := findTurnStartPoint data cornerStart cornerEnd avgRadius
    some { startIdx := cornerStart, endIdx := cornerEnd
           position := (getPt points turnStartIdx).distance.getD 0
           totalAngle := totalAngle, direction := direction
           avgRadius := avgRadius }
  else none

/-- The straight samples visible in the 7-sample lookahead from `i`. -/
def countStraight (data : List Sample) (i : ℕ) : ℕ :=
  ((List.range' i (min (i + 7) data.length - i)).filter fun j =>
    decide (500 ≤ (data.getD j defaultSample).radius)).length

/-- The split-corner lookahead: curvature resumes in the rotational
direction of the corner so far within 10 samples. -/
def resumesInSameDirection (data : List Sample) (i : ℕ)
    (bearingStart bearingEnd : ℚ) : Bool :=
  let currentDirection := normalizeBearing (bearingEnd - bearingStart)
  (List.range' i (min (i + 10) data.length - i)).any fun k =>
    decide ((data.getD k defaultSample).radius < 500 ∧
      ((normalizeBearing ((data.getD (min (k + 5) (data.length - 1))
          defaultSample).bearing - (data.getD k defaultSample).bearing) < 0 ∧
        currentDirection < 0) ∨
       (0 < normalizeBearing ((data.getD (min (k + 5) (data.length - 1))
          defaultSample).bearing - (data.getD k defaultSample).bearing) ∧
        0 < currentDirection)))

/-- The in-corner accumulator of the state machine: corner start index,
collected radii (push order reversed; only their sum and count are used)
and the bearing at the corner start. -/
structure CornerState where
  cornerStart : ℕ
  cornerRadii : List ℚ
  bearingStart : ℚ

/-- The end-of-route flush of `identifySignificantCorners`: a corner still
open when the loop ends is registered by the same significance check. -/
def identifyFlush (data : List Sample) (points : List RoutePoint)
    (st : Option CornerState) (acc : List Corner) : List Corner :=
  match st with
  | some ⟨cornerStart, cornerRadii, bearingStart⟩ =>
    if 5 ≤ cornerRadii.length then
      let cornerEnd := data.length - 1
      let bearingEnd := (data.getD cornerEnd defaultSample).bearing
      let totalAngle := |normalizeBearing (bearingEnd - bearingStart)|
      let avgRadius := listAvg cornerRadii
      match cornerIfSignificant data points cornerStart cornerEnd totalAngle
          avgRadius (turnSign (normalizeBearing (bearingEnd - bearingStart))) with
      | some c => acc ++ [c]
      | none => acc
    else acc
  | none => acc

/-- One pass of `identifySignificantCorners` from sample `i` onward.
`NOT_IN_CORNER`/`IN_CORNER` is the optionality of the state; the end-of-loop
flush applies the same registration check.  The first argument is
structural-recursion fuel; any value of at least `data.length + 1 - i`
covers the whole loop. -/
def identifyGo (data : List Sample) (points : List RoutePoint) :
    ℕ → ℕ → Option CornerState → List Corner → List Corner
  | 0, _, st, acc => identifyFlush data points st acc
  | fuel + 1, i, st, acc =>
    if i < data.length then
      let s := data.getD i defaultSample
      match st with
      | none =>
        if s.radius < 500 then
          identifyGo data points fuel (i + 1) (some ⟨i, [s.radius], s.bearing⟩) acc
        else identifyGo data points fuel (i + 1) none acc
      | some ⟨cornerStart, cornerRadii, bearingStart⟩ =>
        if s.radius < 500 then
          let currentBearingChange := normalizeBearing (s.bearing - bearingStart)
          let startDirection := turnSign currentBearingChange
          let earlyBearing := (data.getD (cornerStart + 3) defaultSample).bearing
          let earlyChange := normalizeBearing (earlyBearing - bearingStart)
          let earlyDirection := turnSign earlyChange
          if 5 < cornerRadii.length ∧ earlyDirection ≠ startDirection ∧
              10 < |earlyChange| then
            let cornerEnd := i - 1
            let acc' :=
              if 5 ≤ cornerEnd - cornerStart ∧ cornerRadii ≠ [] then
                let bearingEnd := (data.getD cornerEnd defaultSample).bearing
                let totalAngle := |normalizeBearing (bearingEnd - bearingStart)|
                let avgRadius := listAvg cornerRadii
                match cornerIfSignificant data points cornerStart cornerEnd
                    totalAngle avgRadius earlyDirection with
                | some c => acc ++ [c]
                | none => acc
              else acc
            identifyGo data points fuel (i + 1) (some ⟨i, [s.radius], s.bearing⟩) acc'
          else
            identifyGo data points fuel (i + 1)
              (some ⟨cornerStart, s.radius :: cornerRadii, bearingStart⟩) acc
        else
          let straightCount := countStraight data i
          let currentAvgRadius :=
            if cornerRadii.length ≠ 0 then listAvg cornerRadii else 999
          let requiredStraight : ℕ := if currentAvgRadius < 80 then 6 else 4
          if requiredStraight ≤ straightCount then
            let cornerEnd : ℤ := (i : ℤ) - straightCount
            if 5 ≤ cornerEnd - (cornerStart : ℤ) ∧ cornerRadii ≠ [] then
              let ce := cornerEnd.toNat
              let bearingEnd := (data.getD ce defaultSample).bearing
              let totalAngle := |normalizeBearing (bearingEnd - bearingStart)|
              let avgRadius := listAvg cornerRadii
              if (35 ≤ totalAngle ∧ totalAngle ≤ 55 ∧ avgRadius < 80) ∧
                  resumesInSameDirection data i bearingStart bearingEnd then
                identifyGo data points fuel (i + 1)
                  (some ⟨cornerStart, s.radius :: cornerRadii, bearingStart⟩) acc
              else
                let acc' :=
                  match cornerIfSignificant data points cornerStart ce totalAngle
                      avgRadius (turnSign (normalizeBearing (bearingEnd - bearingStart))) with
                  | some c => acc ++ [c]
                  | none => acc
                identifyGo data points fuel (i + 1) none acc'
            else identifyGo data points fuel (i + 1) none acc
          else
            identifyGo data points fuel (i + 1)
              (some ⟨cornerStart, s.radius :: cornerRadii, bearingStart⟩) acc
    else identifyFlush data points st acc

/-- `identifySignificantCorners`: run the state machine over the profile. -/
def identifySignificantCorners (data : List Sample) (points : List RoutePoint) :
    List Corner :=
  identifyGo data points (data.length + 1) 0 none []

/-- The scan of `detectInstantSharpTurns` from sample `i` onward: a bearing
change above 60° across ±3 samples at a locally tight (<100) radius is an
instant turn; after a detection the scan skips ahead 4 samples. -/
def detectGo (data : List Sample) (points : List RoutePoint) :
    ℕ → ℕ → List Corner → List Corner
  | 0, _, acc => acc
  | fuel + 1, i, acc =>
    if i + 3 < data.length then
      let beforeBearing := (data.getD (i - 3) defaultSample).bearing
      let afterBearing := (data.getD (i + 3) defaultSample).bearing
      let bearingChange := normalizeBearing (afterBearing - beforeBearing)
      if 60 < |bearingChange| ∧ (data.getD i defaultSample).radius < 100 then
        let c : Corner :=
          { startIdx := i - 2, endIdx := min (data.length - 1) (i + 2)
            position := (getPt points i).distance.getD 0
            totalAngle := |bearingChange|
            direction := turnSign bearingChange
            avgRadius := (data.getD i defaultSample).radius }
        detectGo data points fuel (i + 4) (acc ++ [c])
      else detectGo data points fuel (i + 1) acc
    else acc

/-- `detectInstantSharpTurns`: the scan starts at the lookback offset 3. -/
def detectInstantSharpTurns (data : List Sample) (points : List RoutePoint) :
    List Corner :=
  detectGo data points data.length 3 []

/-- The duplicate test of `removeDuplicateCorners`: within 20 units and the
same direction. -/
def isDupOf (corner existing : Corner) : Bool :=
  decide (|corner.position - existing.position| < 20 ∧
    corner.direction = existing.direction)

/-- `removeDuplicateCorners`: keep the first of a duplicate pair unless the
newcomer has a larger angle or a tighter radius, in which case it replaces
the existing entry in place. -/
def removeDuplicateCorners (corners : List Corner) : List Corner :=
  corners.foldl
    (fun unique corner =>
      if unique.any (isDupOf corner) then
        match unique.findIdx? (isDupOf corner) with
        | some j =>
          let ex := unique.getD j defaultCorner
          if ex.totalAngle < corner.totalAngle ∨ corner.avgRadius < ex.avgRadius then
            unique.set j corner
          else unique
        | none => unique
      else unique ++ [corner])
    []

/-- Stable insertion of a corner after all entries with a position not
exceeding its own. -/
def insertByPosition (c : Corner) : List Corner → List Corner
  | [] => [c]
  | x :: xs =>
    if x.position ≤ c.position then x :: insertByPosition c xs else c :: x :: xs

/-- The stable sort by position (`allCorners.sort((a, b) => a.position -
b.position)`; JS array sort is stable). -/
def sortByPosition (l : List Corner) : List Corner :=
  l.foldl (fun acc c => insertByPosition c acc) []

/-! ## Distance annotation and resampling -/
/-- The cumulative-distance walk of `calculateRoutePointDistances` over the
points after the first. -/
def annotateGo (geo : Geo) (prev : RoutePoint) (cum : ℚ) :
    List RoutePoint → List RoutePoint
  | [] => []
  | p :: ps =>
    let cum' := cum + geo.dist prev.coord p.coord
    { p with distance := some cum' } :: annotateGo geo p cum' ps

/-- `calculateRoutePointDistances`: writes 0 into the first point and the
running great-circle sum into every later point. -/
def calculateRoutePointDistances (geo : Geo) (points : List RoutePoint) :
    List RoutePoint :=
  match points with
  | [] => []
  | p0 :: rest => { p0 with distance := some 0 } :: annotateGo geo p0 0 rest

/-- `interpolatePoint`: linear blend of latitude, longitude and elevation
(missing elevation treated as 0). -/
def interpolatePoint (p1 p2 : RoutePoint) (ratio : ℚ) : RoutePoint :=
  { lat := p1.lat + (p2.lat - p1.lat) * ratio
    lng := p1.lng + (p2.lng - p1.lng) * ratio
    elevation := some (p1.elevation.getD 0 +
      (p2.elevation.getD 0 - p1.elevation.getD 0) * ratio)
    distance := none }

/-- The main loop of `interpolatePoints`: per segment, push the segment
start at the running distance, then one blended point per full 3-unit step;
the running distance advances by the exact segment length. -/
def interpGo (geo : Geo) (cum : ℚ) : List RoutePoint → List RoutePoint
  | [] => []
  | [_] => []
  | cur :: next :: rest =>
    let segDist := geo.dist cur.coord next.coord
    let numSegments := (⌊segDist / 3⌋).toNat
    ({ cur with distance := some cum } ::
      (List.range' 1 numSegments).map fun j =>
        { interpolatePoint cur next ((j : ℚ) * 3 / segDist) with
            distance := some (cum + 3 * j) }) ++
    interpGo geo (cum + segDist) (next :: rest)

/-- `interpolatePoints`: the loop above, then the final raw point appended
with the distance of the last point produced so far. -/
def interpolatePoints (geo : Geo) (points : List RoutePoint) :
    List RoutePoint :=
  let interpolated := interpGo geo 0 points
  let lastDistance :=
    match interpolated.getLast? with
    | some p => p.distance.getD 0
    | none => 0
  match points.getLast? with
  | some lastP => interpolated ++ [{ lastP with distance := some lastDistance }]
  | none => interpolated

/-! ## Note assembly -/
/-- `createStartNote`. -/
def createStartNote : PaceNote :=
  { position := 0, distance := 0, noteType := .straight, direction := none
    severity := .num 6, turnNumber := 6, modifiers := [], hazards := []
    advice := [], surface := "asphalt" }

/-- `createFinishNote`: positioned at the route's total distance, without
rounding. -/
def createFinishNote (totalDistance : ℚ) : PaceNote :=
  { position := totalDistance, distance := totalDistance, noteType := .advice
    direction := none, severity := .finishLabel, turnNumber := 0
    modifiers := [], hazards := [], advice := [.overFinish]
    surface := "asphalt", distanceToNext := none }

/-- `calculateDistancesToNext`: every note's `distanceToNext` becomes the
position delta to its successor, the final note's becomes `null`. -/
def withDistancesToNext : List PaceNote → List PaceNote
  | [] => []
  | [n] => [{ n with distanceToNext := none }]
  | n :: m :: rest =>
    { n with distanceToNext := some (m.position - n.position) } ::
      withDistancesToNext (m :: rest)

/-- The annotated raw points of a route (the post-mutation state of the
caller's `route.points` array). -/
def annotatedPoints (geo : Geo) (route : Route) : List RoutePoint :=
  calculateRoutePointDistances geo route.points

/-- The resampled point sequence of a route. -/
def interpolatedOf (geo : Geo) (route : Route) : List RoutePoint :=
  interpolatePoints geo (annotatedPoints geo route)

/-- The curvature profile of a route. -/
def profileOf (geo : Geo) (route : Route) : List Sample :=
  calculateCurvatureProfile geo (interpolatedOf geo route)

/-- Sustained corners and instant turns pooled and sorted by position. -/
def allCornersSorted (geo : Geo) (route : Route) : List Corner :=
  sortByPosition
    (identifySignificantCorners (profileOf geo route) (interpolatedOf geo route) ++
      detectInstantSharpTurns (profileOf geo route) (interpolatedOf geo route))

/-- The deduplicated corner list of a route. -/
def uniqueCornersOf (geo : Geo) (route : Route) : List Corner :=
  removeDuplicateCorners (allCornersSorted geo route)

/-- The start note and the corner notes: the first corner's own note is
moved to position 0 and used as the start when that corner begins within 50
units of the route start, else a generic start note precedes all corner
notes. -/
def frontNotes (geo : Geo) (route : Route) : List PaceNote :=
  let ipts := interpolatedOf geo route
  let uniq := uniqueCornersOf geo route
  match uniq with
  | c :: rest =>
    if c.position < 50 then
      match analyzeCorner geo c ipts with
      | some n =>
        { n with position := 0, distance := 0 } ::
          rest.filterMap fun c' => analyzeCorner geo c' ipts
      | none =>
        createStartNote :: (c :: rest).filterMap fun c' => analyzeCorner geo c' ipts
    else createStartNote :: (c :: rest).filterMap fun c' => analyzeCorner geo c' ipts
  | [] => [createStartNote]

/-- The assembled note list before `distanceToNext` computation. -/
def preNotes (geo : Geo) (route : Route) : List PaceNote :=
  frontNotes geo route ++ [createFinishNote route.totalDistance]

/-- `processRoute`: the full pipeline. -/
def processRoute (geo : Geo) (route : Route) : List PaceNote :=
  if route.points.length < 2 then []
  else if (interpolatedOf geo route).length < 10 then []
  else withDistancesToNext (preNotes geo route)

/-- The state of the caller's `route` object after a `processRoute` run:
the cumulative-distance mutation has happened exactly when the point count
reached 2. -/
def processRouteFinalState (geo : Geo) (route : Route) : Route :=
  if route.points.length < 2 then route
  else { route with points := annotatedPoints geo route }

/-- A geometry in which every segment is 2.9 units long and every
circumradius is degenerate: a straight route. -/
def geoStraight : Geo where
  dist := fun _ _ => 29 / 10
  bearing := fun _ _ => 0
  sqrt := fun _ => some 0

/-- A single-point route. -/
def routeOnePoint : Route :=
  { points := [{ lat := 0, lng := 0 }], totalDistance := 0 }

/-- A two-point route (2 resampled points, below the 10-point minimum). -/
def routeTwoPoints : Route :=
  { points := [{ lat := 0, lng := 0 }, { lat := 1, lng := 0 }]
    totalDistance := 29 / 10 }

/-! ## C9: the input route is mutated by the distance annotation -/
/-- The cumulative along-route distance to point `i`: the sum of the
consecutive segment distances before it. -/
def cumulativeDistance (geo : Geo) : ℕ → List RoutePoint → ℚ
  | 0, _ => 0
  | _ + 1, [] => 0
  | _ + 1, [_] => 0
  | i + 1, p :: q :: rest =>
    geo.dist p.coord q.coord + cumulativeDistance geo i (q :: rest)

/-- An 11-point straight route whose total distance, 29, is not a multiple
of 10. -/
def routeStraight : Route :=
  { points := (List.range 11).map fun i => { lat := (i : ℚ), lng := 0 }
    totalDistance := 29 }

/-! ## C3: chicane merging (spec-modelled)

The chicane merger (`shouldMergeNotes` / `createMergedNote`) is not present
in the repository sources; only its design documents and its display-side
consumers (`_secondNote` readers) are.  The definitions below are therefore
modelled from the specification §4.6 rather than translated from code. -/
/-- Modelled from the spec: the merge eligibility test of §4.6 — `(a)`
positions within 40 units, `(b)` neither note's numeric severity is 1,
`(c)` absolute severity difference at most 3, `(d)` both notes have a
direction.  (`shouldMergeNotes` is missing from the sources.) -/
def shouldMergeNotes (n1 n2 : PaceNote) : Bool :=
  decide (|n2.position - n1.position| ≤ 40 ∧
    severityNumeric n1.severity ≠ 1 ∧ severityNumeric n2.severity ≠ 1 ∧
    |severityNumeric n1.severity - severityNumeric n2.severity| ≤ 3 ∧
    n1.direction.isSome ∧ n2.direction.isSome)

/-- Modelled from the spec: an output entry of the chicane merger — either
an untouched note or a compound note carrying both constituent notes (the
`MergedPaceNote` of §3, storing the second note for display). -/
inductive NoteOut where
  | single (n : PaceNote)
  | merged (n1 n2 : PaceNote)
deriving DecidableEq, Repr

/-- Modelled from the spec: the merging pass over the notes strictly
between Start and Finish — each adjacent pair merges when eligible, a
merged pair is consumed whole (chains never exceed two), and the trailing
note (the Finish) is never merged. -/
def mergeBody : List PaceNote → List NoteOut
  | [] => []
  | [n] => [.single n]
  | [n1, n2] => [.single n1, .single n2]
  | n1 :: n2 :: n3 :: rest =>
    if shouldMergeNotes n1 n2 then .merged n1 n2 :: mergeBody (n3 :: rest)
    else .single n1 :: mergeBody (n2 :: n3 :: rest)

/-- Modelled from the spec: the chicane merger over a full note list — the
leading Start note is never merged, the rest is processed by `mergeBody`. -/
def mergeChicanes : List PaceNote → List NoteOut
  | [] => []
  | startNote :: rest => .single startNote :: mergeBody rest

/-- The notes covered by a merger output, in order. -/
def flattenNotes : List NoteOut → List PaceNote
  | [] => []
  | .single n :: rest => n :: flattenNotes rest
  | .merged a b :: rest => a :: b :: flattenNotes rest

/-- A severity-4 left at 100 for the merger witness. -/
def witnessNoteA : PaceNote :=
  { defaultNote with
      position := 100, severity := .num 4, turnNumber := 4
      direction := some .left }

/-- A severity-6 right at 130 for the merger witness. -/
def witnessNoteB : PaceNote :=
  { defaultNote with
      position := 130, severity := .num 6, turnNumber := 6
      direction := some .right }

/-! ## C5: note positions along the output sequence -/
/-- Geometry for the C5 counterexample.  Adjacent points are 2 apart up to
point 28 and 1/10 apart after it; every circumradius triple is degenerate
(`sqrt` returns an area of 0) except the triple around point 28, whose
Heron argument `1599/160000` is given the exact area `1/500`, yielding a
circumradius of 50 there.  Bearings hold 0 until point 25 and 70 from then
on, so the bearing step across samples 25–31 exceeds 60°. -/
def geoC5 : Geo where
  bearing := fun p _ => if 25 ≤ p.1 then 70 else 0
  dist := fun p q =>
    let lo := min p.1 q.1
    let hi := max p.1 q.1
    let d := hi - lo
    if d = 1 then (if 28 ≤ lo then 1 / 10 else 2)
    else if d = 2 then (if lo = 27 then 2 else 4)
    else 2 * d
  sqrt := fun x =>
    if x < 0 then none
    else if x = 1599 / 160000 then some (1 / 500)
    else some 0

/-- A 32-point route: 28 segments of length 2 followed by three of length
1/10.  Its `totalDistance`, 56.3, is exactly the sum of its segment
distances, so the route is consistent with its own geometry. -/
def routeC5 : Route :=
  { points := (List.range 32).map fun i => { lat := (i : ℚ), lng := 0 }
    totalDistance := 563 / 10 }

/-- Geometry for the second C5 counterexample.  Distances are 12/5 per unit
of index difference, so every circumradius triple is collinear (area 0),
except the three chords at index pairs (24,26), (28,30) and (32,34), whose
Heron argument `176/25` is given the exact area `72/625`: the circumradius
is 50 exactly at samples 25, 29 and 33.  The bearing steps down 0 → −70 →
−5 → −77 across those samples, so the ±3-sample bearing changes there are
−70°, +65° and −72°: three instant sharp turns, Left, Right, Left. -/
def geoC5b : Geo where
  bearing := fun p _ =>
    if p.1 ≤ 25 then 0
    else if p.1 ≤ 29 then -70
    else if p.1 ≤ 33 then -5
    else -77
  dist := fun p q =>
    let lo := min p.1 q.1
    let hi := max p.1 q.1
    let d := hi - lo
    if d = 2 ∧ (lo = 24 ∨ lo = 28 ∨ lo = 32) then 4
    else 12 * d / 5
  sqrt := fun x =>
    if x < 0 then none
    else if x = 176 / 25 then some (72 / 625)
    else some 0

/-- A 40-point route with uniform segments of length 12/5; its
`totalDistance`, 93.6, equals the sum of its segment distances.  Its three
detected corners sit at positions 60 (Left, 70°), 69.6 (Right, 65°) and
79.2 (Left, 72°): `removeDuplicateCorners` finds the third a duplicate of
the first (within 20 units, same direction) with a larger angle and
replaces the first *in place*, leaving the corner list [Left@79.2,
Right@69.6] — no longer sorted by position. -/
def routeC5b : Route :=
  { points := (List.range 40).map fun i => { lat := (i : ℚ), lng := 0 }
    totalDistance := 468 / 5 }

/-! ## C1: special labels respect their numeric-class cap -/
/-- **C1.** Every special severity label produced by
`determineSeverityAndType` satisfies its defining conditions: Hairpin only
for a total angle in [150°, 180°] with a numeric class (of the same radius)
at most 2; Square only for an angle in [75°, 105°] with numeric class at most
3; Acute only for an angle in (25°, 60°) with numeric class at most 3.
Every corner note `analyzeCorner` emits takes its severity from
`determineSeverityAndType` at the corner's entry radius and total angle, so
the conditions bind every emitted note. -/
theorem special_labels_respect_numeric_cap (radius totalAngle : ℚ) :
    (((determineSeverityAndType radius totalAngle).1 = .hairpin →
      150 ≤ totalAngle ∧ totalAngle ≤ 180 ∧ mapRadiusToMcRae radius ≤ 2) ∧
    ((determineSeverityAndType radius totalAngle).1 = .square →
      75 ≤ totalAngle ∧ totalAngle ≤ 105 ∧ mapRadiusToMcRae radius ≤ 3) ∧
    ((determineSeverityAndType radius totalAngle).1 = .acute →
      25 < totalAngle ∧ totalAngle < 60 ∧ mapRadiusToMcRae radius ≤ 3)) ∧
    (∀ (geo : Geo) (corner : Corner) (points : List RoutePoint)
      (note : PaceNote), analyzeCorner geo corner points = some note →
      note.severity = (determineSeverityAndType
        (entryRadiusOf geo corner points) corner.totalAngle).1) := by
  constructor
  · unfold determineSeverityAndType
    refine ⟨?_, ?_, ?_⟩ <;> intro h <;>
      (repeat' split at h) <;>
      simp at h <;>
      rcases ‹_ ∧ _ ∧ _› with ⟨h1, h2, h3⟩ <;>
      refine ⟨by linarith, by linarith, ?_⟩ <;>
      simp only [mapRadiusToMcRae, severityThreshold] <;>
      norm_num <;>
      (repeat' split) <;>
      linarith
  · intro geo corner points note h
    unfold analyzeCorner at h
    dsimp only at h
    split at h
    · exact absurd h (by simp)
    · injection h with h'
      rw [← h']
      rfl

/-- Witness for C1 at a concrete input: radius 30, angle 160 produces a
Hairpin, whose conditions then hold. -/
theorem special_labels_respect_numeric_cap_witness :
    150 ≤ (160 : ℚ) ∧ (160 : ℚ) ≤ 180 ∧ mapRadiusToMcRae 30 ≤ 2 :=
  (special_labels_respect_numeric_cap 30 160).1.1 (by decide)

theorem foldl_min_mem (r : ℚ) (l : List ℚ) : l.foldl min r ∈ r :: l := by
  induction l generalizing r with
  | nil => simp
  | cons x xs ih =>
    rw [List.foldl_cons]
    rcases List.mem_cons.mp (ih (min r x)) with h1 | h1
    · rcases min_choice r x with h2 | h2
      · rw [h1, h2]; exact List.mem_cons_self _ _
      · rw [h1, h2]; exact List.mem_cons_of_mem _ (List.mem_cons_self _ _)
    · exact List.mem_cons_of_mem _ (List.mem_cons_of_mem _ h1)

theorem foldl_min_le (r : ℚ) (l : List ℚ) : ∀ x ∈ r :: l, l.foldl min r ≤ x := by
  induction l generalizing r with
  | nil => intro x hx; simp at hx; simp [hx]
  | cons y ys ih =>
    intro x hx
    rw [List.foldl_cons]
    rcases List.mem_cons.mp hx with rfl | hx1
    · exact (ih (min x y) (min x y) (List.mem_cons_self _ _)).trans (min_le_left _ _)
    · rcases List.mem_cons.mp hx1 with rfl | hx2
      · exact (ih (min r x) (min r x) (List.mem_cons_self _ _)).trans (min_le_right _ _)
      · exact ih (min r y) x (List.mem_cons_of_mem _ hx2)

/-- The profile entry at an in-range index. -/
theorem profile_getD (geo : Geo) (points : List RoutePoint) (i : ℕ)
    (h : i < points.length) :
    (calculateCurvatureProfile geo points).getD i defaultSample =
      { idx := i, radius := pointRadius geo points i,
        bearing := pointBearing geo points i } := by
  unfold calculateCurvatureProfile
  rw [List.getD_eq_getElem?_getD, List.getElem?_map, List.getElem?_range h]
  rfl

theorem candStep_sound (geo : Geo) (points : List RoutePoint) (i : ℕ)
    (radii : List ℚ) (w : ℚ) (r : ℚ) (h : r ∈ candStep geo points i radii w) :
    r ∈ radii ∨
      (windowCircumradius geo points i w = some r ∧ 0 < r ∧ r < 2000) := by
  unfold candStep at h
  split at h
  next radius heq =>
    split at h
    next hcond =>
      rcases List.mem_append.mp h with h' | h'
      · exact Or.inl h'
      · simp only [List.mem_singleton] at h'
        subst h'
        exact Or.inr ⟨heq, hcond⟩
    next => exact Or.inl h
  next => exact Or.inl h

theorem foldl_candStep_sound (geo : Geo) (points : List RoutePoint) (i : ℕ)
    (ws : List ℚ) :
    ∀ init : List ℚ, ∀ r ∈ ws.foldl (candStep geo points i) init,
      r ∈ init ∨
        ∃ w ∈ ws, windowCircumradius geo points i w = some r ∧
          0 < r ∧ r < 2000 := by
  induction ws with
  | nil => intro init r h; exact Or.inl h
  | cons w ws ih =>
    intro init r h
    rcases ih (candStep geo points i init w) r h with h' | ⟨w', hw', hprop⟩
    · rcases candStep_sound geo points i init w r h' with h'' | h''
      · exact Or.inl h''
      · exact Or.inr ⟨w, by simp, h''⟩
    · exact Or.inr ⟨w', by simp [hw'], hprop⟩

/-- Every surviving candidate comes from some window and lies strictly
between 0 and 2000. -/
theorem candidate_sound (geo : Geo) (points : List RoutePoint) (i : ℕ) :
    ∀ r ∈ curvatureRadiusCandidates geo points i,
      ∃ w ∈ windowSizes, windowCircumradius geo points i w = some r ∧
        0 < r ∧ r < 2000 := by
  intro r h
  rcases foldl_candStep_sound geo points i windowSizes [] r h with h' | h'
  · simp at h'
  · exact h'

/-! ## C7: profile radius is the minimum valid window estimate -/
/-- **C7.** For every in-range point `i`, the radius recorded in the
curvature profile either is the sentinel `9999` with no window having
produced a valid estimate (a degenerate window contributes `none` to the
candidates), or is a valid estimate of one of the windows `{5,10,15,20}`
that is a lower bound of all surviving estimates, i.e. their minimum. -/
theorem profile_radius_is_min_of_window_estimates (geo : Geo)
    (points : List RoutePoint) (i : ℕ) (h : i < points.length) :
    (curvatureRadiusCandidates geo points i = [] ∧
      ((calculateCurvatureProfile geo points).getD i defaultSample).radius = 9999) ∨
    (((calculateCurvatureProfile geo points).getD i defaultSample).radius ∈
        curvatureRadiusCandidates geo points i ∧
      ∀ x ∈ curvatureRadiusCandidates geo points i,
        ((calculateCurvatureProfile geo points).getD i defaultSample).radius ≤ x) := by
  rw [profile_getD geo points i h]
  show (_ ∧ pointRadius geo points i = 9999) ∨
    (pointRadius geo points i ∈ _ ∧ ∀ x ∈ _, pointRadius geo points i ≤ x)
  unfold pointRadius
  cases hc : curvatureRadiusCandidates geo points i with
  | nil => exact Or.inl ⟨rfl, rfl⟩
  | cons r rs =>
    refine Or.inr ⟨?_, ?_⟩
    · exact foldl_min_mem r rs
    · exact foldl_min_le r rs

theorem profile_radius_is_min_of_window_estimates_witness :
    (curvatureRadiusCandidates witnessGeoC7 witnessPoints7 3 = [] ∧
      ((calculateCurvatureProfile witnessGeoC7 witnessPoints7).getD 3 defaultSample).radius = 9999) ∨
    (((calculateCurvatureProfile witnessGeoC7 witnessPoints7).getD 3 defaultSample).radius ∈
        curvatureRadiusCandidates witnessGeoC7 witnessPoints7 3 ∧
      ∀ x ∈ curvatureRadiusCandidates witnessGeoC7 witnessPoints7 3,
        ((calculateCurvatureProfile witnessGeoC7 witnessPoints7).getD 3 defaultSample).radius ≤ x) :=
  profile_radius_is_min_of_window_estimates witnessGeoC7 witnessPoints7 3 (by decide)

/-! ## C10: the 0 < r < 2000 validity filter -/
/-- **C10.** A window estimate enters the minimum only if it is strictly
between 0 and 2000: a profile radius other than the sentinel is itself such
an estimate; and if every window yields a circumradius of 2000 or more, the
point is reported with the sentinel 9999. -/
theorem estimates_filtered_at_2000 (geo : Geo) (points : List RoutePoint)
    (i : ℕ) (h : i < points.length) :
    ((∀ w ∈ windowSizes, ∀ r, windowCircumradius geo points i w = some r →
        2000 ≤ r) →
      ((calculateCurvatureProfile geo points).getD i defaultSample).radius = 9999) ∧
    (((calculateCurvatureProfile geo points).getD i defaultSample).radius ≠ 9999 →
      ∃ w ∈ windowSizes,
        windowCircumradius geo points i w =
          some ((calculateCurvatureProfile geo points).getD i defaultSample).radius ∧
        0 < ((calculateCurvatureProfile geo points).getD i defaultSample).radius ∧
        ((calculateCurvatureProfile geo points).getD i defaultSample).radius < 2000) := by
  rw [profile_getD geo points i h]
  constructor
  · intro hall
    have hempty : curvatureRadiusCandidates geo points i = [] := by
      by_contra hne
      rcases List.exists_mem_of_ne_nil _ hne with ⟨r, hr⟩
      rcases candidate_sound geo points i r hr with ⟨w, hw, heq, _, hlt⟩
      exact absurd (hall w hw r heq) (by linarith)
    show pointRadius geo points i = 9999
    unfold pointRadius
    rw [hempty]
  · intro hne
    have hne' : pointRadius geo points i ≠ 9999 := hne
    have hmem : pointRadius geo points i ∈ curvatureRadiusCandidates geo points i := by
      by_cases hc : curvatureRadiusCandidates geo points i = []
      · exfalso; apply hne'; unfold pointRadius; rw [hc]
      · obtain ⟨r, rs, hrr⟩ := List.exists_cons_of_ne_nil hc
        have hval : pointRadius geo points i = rs.foldl min r := by
          unfold pointRadius; rw [hrr]
        rw [hval, hrr]
        exact foldl_min_mem r rs
    rcases candidate_sound geo points i _ hmem with ⟨w, hw, hweq, h0, h2000⟩
    exact ⟨w, hw, hweq, h0, h2000⟩

/-- Witness for C10: with all pairwise distances 20 and a unit square root,
every window at point 3 of the 7-point route yields circumradius exactly
2000, and the recorded radius is the sentinel 9999. -/
theorem estimates_filtered_at_2000_witness :
    ((calculateCurvatureProfile witnessGeoC7 witnessPoints7).getD 3 defaultSample).radius
      = 9999 :=
  (estimates_filtered_at_2000 witnessGeoC7 witnessPoints7 3 (by decide)).1
    (by
      intro w hw r hr
      simp only [windowSizes, List.mem_cons, List.not_mem_nil, or_false] at hw
      rcases hw with rfl | rfl | rfl | rfl <;>
        · rw [show windowCircumradius witnessGeoC7 witnessPoints7 3 _ = some 2000 from by
              decide] at hr
          injection hr with h
          rw [← h])

/-! ## C2: inconsistent direction suppresses radius change -/
/-- **C2.** If the direction safety check on a corner slice finds the start
and end turning directions inconsistent, `analyzeRadiusChangeInCorner`
reports no radius change, and consequently a note produced for that corner
carries neither a `tightens` nor a `widens` modifier. -/
theorem inconsistent_direction_no_radius_change (geo : Geo) :
    (∀ points : List RoutePoint, rcInconsistent geo points = true →
      analyzeRadiusChangeInCorner geo points = none) ∧
    (∀ (corner : Corner) (points : List RoutePoint) (note : PaceNote),
      rcInconsistent geo (cornerSlice corner points) = true →
      analyzeCorner geo corner points = some note →
      Modifier.tightens ∉ note.modifiers ∧ Modifier.widens ∉ note.modifiers) := by
  have main : ∀ points : List RoutePoint, rcInconsistent geo points = true →
      analyzeRadiusChangeInCorner geo points = none := by
    intro points hinc
    unfold analyzeRadiusChangeInCorner
    rw [hinc]
    simp
  refine ⟨main, ?_⟩
  intro corner points note hinc hnote
  unfold analyzeCorner at hnote
  dsimp only [] at hnote
  rw [main _ hinc] at hnote
  split at hnote
  · exact absurd hnote (by simp)
  · injection hnote with h
    cases h
    show Modifier.tightens ∉
        lengthModifierList (getLengthModifier corner.totalAngle) ++
          radiusChangeModifierList _ none ∧
      Modifier.widens ∉
        lengthModifierList (getLengthModifier corner.totalAngle) ++
          radiusChangeModifierList _ none
    unfold radiusChangeModifierList lengthModifierList
    constructor <;>
      · intro hmem
        cases hge : getLengthModifier corner.totalAngle with
        | none => rw [hge] at hmem; simp at hmem
        | some lm => rw [hge] at hmem; cases lm <;> simp at hmem

theorem inconsistent_direction_no_radius_change_witness :
    analyzeRadiusChangeInCorner witnessGeoC2 witnessPoints9 = none :=
  (inconsistent_direction_no_radius_change witnessGeoC2).1 witnessPoints9
    (by decide)

/-- **C8 counterexample.** On a slice with enough points, a consistent
direction and three valid sampled radii whose last-third average is exactly
20% below the first-third average, `analyzeRadiusChangeInCorner` reports no
radius change — refuting "a decrease of at least 20% is reported as
tightens" at the boundary. -/
theorem radius_change_boundary_counterexample :
    9 ≤ witnessPoints9.length ∧
    rcInconsistent witnessGeoC8 witnessPoints9 = false ∧
    3 ≤ (rcSampledRadii witnessGeoC8 witnessPoints9).length ∧
    rcLastAvg witnessGeoC8 witnessPoints9 =
      rcFirstAvg witnessGeoC8 witnessPoints9 * (4 / 5) ∧
    analyzeRadiusChangeInCorner witnessGeoC8 witnessPoints9 = none := by
  refine ⟨?_, ?_, ?_, ?_, ?_⟩ <;> decide

/-- **C8 (amended).** For a slice with at least 9 points, a consistent
direction and at least 3 valid sampled radii, the analysis reports tightens
exactly when the relative change is strictly below −20%, widens exactly when
it is strictly above +20%, and no radius change exactly when the change lies
in the closed interval [−20%, +20%]. -/
theorem radius_change_strict_thresholds (geo : Geo) (points : List RoutePoint)
    (h9 : 9 ≤ points.length)
    (hcons : rcInconsistent geo points = false)
    (h3 : 3 ≤ (rcSampledRadii geo points).length) :
    (analyzeRadiusChangeInCorner geo points =
        some ⟨.tightens, mapRadiusToMcRae (rcLastAvg geo points),
          rcFirstAvg geo points⟩ ↔
      rcChange geo points < -(1 / 5)) ∧
    (analyzeRadiusChangeInCorner geo points =
        some ⟨.widens, mapRadiusToMcRae (rcLastAvg geo points),
          rcFirstAvg geo points⟩ ↔
      1 / 5 < rcChange geo points) ∧
    (analyzeRadiusChangeInCorner geo points = none ↔
      -(1 / 5) ≤ rcChange geo points ∧ rcChange geo points ≤ 1 / 5) := by
  have e1 : ¬points.length < 9 := by omega
  have e3 : ¬(rcSampledRadii geo points).length < 3 := by omega
  unfold analyzeRadiusChangeInCorner
  rw [if_neg e1, if_neg (by simp [hcons]), if_neg e3]
  by_cases hc1 : rcChange geo points < -(1 / 5)
  · rw [if_pos hc1]
    refine ⟨⟨fun _ => hc1, fun _ => rfl⟩, ⟨fun h => ?_, fun h => ?_⟩,
      ⟨fun h => ?_, fun h => ?_⟩⟩
    · simp at h
    · linarith
    · simp at h
    · rcases h with ⟨h', _⟩; linarith
  · by_cases hc2 : 1 / 5 < rcChange geo points
    · rw [if_neg hc1, if_pos hc2]
      refine ⟨⟨fun h => ?_, fun h => ?_⟩, ⟨fun _ => hc2, fun _ => rfl⟩,
        ⟨fun h => ?_, fun h => ?_⟩⟩
      · simp at h
      · exact absurd h hc1
      · simp at h
      · rcases h with ⟨_, h'⟩; linarith
    · rw [if_neg hc1, if_neg hc2]
      refine ⟨⟨fun h => ?_, fun h => ?_⟩, ⟨fun h => ?_, fun h => ?_⟩,
        ⟨fun _ => ⟨by linarith, by linarith⟩, fun _ => rfl⟩⟩
      · simp at h
      · exact absurd h hc1
      · simp at h
      · exact absurd h hc2

theorem radius_change_strict_thresholds_witness :
    analyzeRadiusChangeInCorner witnessGeoC8w witnessPoints9 =
      some ⟨.tightens, mapRadiusToMcRae (rcLastAvg witnessGeoC8w witnessPoints9),
        rcFirstAvg witnessGeoC8w witnessPoints9⟩ :=
  (radius_change_strict_thresholds witnessGeoC8w witnessPoints9
    (by decide) (by decide)
    (by decide)).1.mpr (by decide)

/-! ## C6: short routes yield an empty note list -/
/-- **C6.** `processRoute` returns the empty note list when the route has
fewer than 2 points, and when resampling yields fewer than 10 points. -/
theorem short_route_empty_notes (geo : Geo) (route : Route) :
    (route.points.length < 2 → processRoute geo route = []) ∧
    ((interpolatedOf geo route).length < 10 → processRoute geo route = []) := by
  constructor
  · intro h
    unfold processRoute
    rw [if_pos h]
  · intro h
    unfold processRoute
    by_cases h2 : route.points.length < 2
    · rw [if_pos h2]
    · rw [if_neg h2, if_pos h]

theorem short_route_empty_notes_witness :
    processRoute geoStraight routeOnePoint = [] ∧
    processRoute geoStraight routeTwoPoints = [] :=
  ⟨(short_route_empty_notes geoStraight routeOnePoint).1 (by decide),
   (short_route_empty_notes geoStraight routeTwoPoints).2 (by decide)⟩

theorem annotateGo_length (geo : Geo) (l : List RoutePoint) :
    ∀ (prev : RoutePoint) (cum : ℚ), (annotateGo geo prev cum l).length = l.length := by
  induction l with
  | nil => intro prev cum; rfl
  | cons p ps ih => intro prev cum; simp [annotateGo, ih]

theorem annotateGo_getD (geo : Geo) (l : List RoutePoint) :
    ∀ (prev : RoutePoint) (cum : ℚ) (i : ℕ), i < l.length →
      (annotateGo geo prev cum l).getD i ⟨0, 0, none, none⟩ =
        { l.getD i ⟨0, 0, none, none⟩ with
            distance := some (cum + cumulativeDistance geo (i + 1) (prev :: l)) } := by
  induction l with
  | nil => intro prev cum i hi; simp at hi
  | cons p ps ih =>
    intro prev cum i hi
    cases i with
    | zero =>
      simp only [annotateGo, List.getD_cons_zero, cumulativeDistance, add_zero]
    | succ i =>
      have hi' : i < ps.length := by simpa using hi
      simp only [annotateGo, List.getD_cons_succ]
      rw [ih p (cum + geo.dist prev.coord p.coord) i hi']
      simp only [cumulativeDistance, add_assoc]

/-- **C9.** For a route with at least 2 points, the pipeline run leaves the
caller's route with every point's latitude, longitude and elevation intact,
the same point count, the same `totalDistance`, `totalTime` and `bbox`, and
a cumulative along-route distance written into every point. -/
theorem processRoute_mutates_input (geo : Geo) (route : Route)
    (h : 2 ≤ route.points.length) :
    (processRouteFinalState geo route).totalDistance = route.totalDistance ∧
    (processRouteFinalState geo route).totalTime = route.totalTime ∧
    (processRouteFinalState geo route).bbox = route.bbox ∧
    (processRouteFinalState geo route).points.length = route.points.length ∧
    ∀ i, i < route.points.length →
      (getPt (processRouteFinalState geo route).points i).lat =
        (getPt route.points i).lat ∧
      (getPt (processRouteFinalState geo route).points i).lng =
        (getPt route.points i).lng ∧
      (getPt (processRouteFinalState geo route).points i).elevation =
        (getPt route.points i).elevation ∧
      (getPt (processRouteFinalState geo route).points i).distance =
        some (cumulativeDistance geo i route.points) := by
  have hne : ¬route.points.length < 2 := by omega
  unfold processRouteFinalState
  rw [if_neg hne]
  refine ⟨rfl, rfl, rfl, ?_, ?_⟩
  · show (annotatedPoints geo route).length = _
    unfold annotatedPoints calculateRoutePointDistances
    cases hp : route.points with
    | nil => rfl
    | cons p0 rest => simp [annotateGo_length]
  · intro i hi
    obtain ⟨p0, rest, hp⟩ : ∃ p0 rest, route.points = p0 :: rest := by
      cases hq : route.points with
      | nil => rw [hq] at h; simp at h
      | cons a l => exact ⟨a, l, rfl⟩
    show (getPt (annotatedPoints geo route) i).lat = _ ∧ _ ∧ _ ∧ _
    unfold annotatedPoints calculateRoutePointDistances getPt
    rw [hp]
    rw [hp] at hi
    cases i with
    | zero =>
      exact ⟨rfl, rfl, rfl, rfl⟩
    | succ i =>
      have hi' : i < rest.length := by simpa using hi
      simp only [List.getD_cons_succ]
      rw [annotateGo_getD geo rest p0 0 i hi']
      refine ⟨rfl, rfl, rfl, ?_⟩
      rw [zero_add]

theorem processRoute_mutates_input_witness :
    (getPt (processRouteFinalState geoStraight routeTwoPoints).points 1).distance =
      some (cumulativeDistance geoStraight 1 routeTwoPoints.points) :=
  ((processRoute_mutates_input geoStraight routeTwoPoints (by decide)).2.2.2.2
    1 (by decide)).2.2.2

/-! ## C4: positions and distances are multiples of 10, except at the finish -/
theorem wdtn_length : ∀ l : List PaceNote, (withDistancesToNext l).length = l.length := by
  intro l
  induction l with
  | nil => rfl
  | cons n rest ih =>
    cases rest with
    | nil => rfl
    | cons m rest2 =>
      show (withDistancesToNext (m :: rest2)).length + 1 = _
      rw [ih]
      rfl

theorem wdtn_getD (l : List PaceNote) : ∀ i, i < l.length →
    (withDistancesToNext l).getD i defaultNote =
      { l.getD i defaultNote with
          distanceToNext :=
            if i + 1 < l.length then
              some ((l.getD (i + 1) defaultNote).position -
                (l.getD i defaultNote).position)
            else none } := by
  induction l with
  | nil => intro i hi; simp at hi
  | cons n rest ih =>
    cases rest with
    | nil =>
      intro i hi
      have : i = 0 := by simpa using hi
      subst this
      simp [withDistancesToNext]
    | cons m rest2 =>
      intro i hi
      cases i with
      | zero =>
        simp [withDistancesToNext]
      | succ i =>
        have hi' : i < (m :: rest2).length := by simpa using hi
        show (withDistancesToNext (m :: rest2)).getD i defaultNote = _
        rw [ih i hi']
        simp only [List.getD_cons_succ, List.length_cons, Nat.add_lt_add_iff_right]

theorem analyzeCorner_position (geo : Geo) (corner : Corner)
    (points : List RoutePoint) (n : PaceNote)
    (h : analyzeCorner geo corner points = some n) :
    n.position = roundDistance corner.position := by
  unfold analyzeCorner at h
  dsimp only at h
  split at h
  · exact absurd h (by simp)
  · injection h with h'
    rw [← h']

theorem roundDistance_mult (d : ℚ) : ∃ k : ℤ, roundDistance d = 10 * k :=
  ⟨⌊d / 10 + 1 / 2⌋, by unfold roundDistance; ring⟩

theorem frontNotes_position_mult (geo : Geo) (route : Route) :
    ∀ n ∈ frontNotes geo route, ∃ k : ℤ, n.position = 10 * k := by
  intro n hn
  unfold frontNotes at hn
  rcases huq : uniqueCornersOf geo route with _ | ⟨c, rest⟩ <;> rw [huq] at hn
  · simp at hn
    subst hn
    exact ⟨0, by rfl⟩
  · dsimp only at hn
    have hmem : ∀ (l : List Corner), n ∈ l.filterMap
        (fun c' => analyzeCorner geo c' (interpolatedOf geo route)) →
        ∃ k : ℤ, n.position = 10 * k := by
      intro l hl
      rcases List.mem_filterMap.mp hl with ⟨c', _, hc'⟩
      rw [analyzeCorner_position geo c' _ n hc']
      exact roundDistance_mult c'.position
    split at hn
    · split at hn
      next n0 heq =>
        rcases List.mem_cons.mp hn with rfl | htail
        · exact ⟨0, rfl⟩
        · exact hmem rest htail
      next =>
        rcases List.mem_cons.mp hn with rfl | htail
        · exact ⟨0, rfl⟩
        · exact hmem (c :: rest) htail
    · rcases List.mem_cons.mp hn with rfl | htail
      · exact ⟨0, rfl⟩
      · exact hmem (c :: rest) htail

/-- **C4 (amended).** Every note position except the Finish note's is a
multiple of 10, and every `distanceToNext` except the one pointing at the
Finish note is a multiple of 10; the Finish note itself sits at the
unrounded total distance. -/
theorem positions_multiples_of_ten_except_finish (geo : Geo) (route : Route) :
    (∀ i, i + 1 < (processRoute geo route).length →
      ∃ k : ℤ, ((processRoute geo route).getD i defaultNote).position = 10 * k) ∧
    (∀ i, i + 2 < (processRoute geo route).length →
      ∃ k : ℤ, ((processRoute geo route).getD i defaultNote).distanceToNext =
        some (10 * k)) := by
  unfold processRoute
  by_cases h2 : route.points.length < 2
  · rw [if_pos h2]
    constructor <;> (intro i hi; simp at hi)
  rw [if_neg h2]
  by_cases h10 : (interpolatedOf geo route).length < 10
  · rw [if_pos h10]
    constructor <;> (intro i hi; simp at hi)
  rw [if_neg h10]
  have hlen := wdtn_length (preNotes geo route)
  have hfront : ∀ i, i + 1 < (preNotes geo route).length →
      ∃ k : ℤ, ((preNotes geo route).getD i defaultNote).position = 10 * k := by
    intro i hi
    have hiF : i < (frontNotes geo route).length := by
      unfold preNotes at hi
      rw [List.length_append] at hi
      simpa using hi
    have heq : (preNotes geo route).getD i defaultNote =
        (frontNotes geo route).getD i defaultNote := by
      unfold preNotes
      rw [List.getD_eq_getElem?_getD, List.getD_eq_getElem?_getD,
        List.getElem?_append, if_pos hiF]
    rw [heq]
    refine frontNotes_position_mult geo route _ ?_
    rw [List.getD_eq_getElem?_getD, List.getElem?_eq_getElem hiF]
    exact List.getElem_mem _
  constructor
  · intro i hi
    rw [wdtn_length] at hi
    have := wdtn_getD (preNotes geo route) i (by omega)
    rw [this]
    exact hfront i hi
  · intro i hi
    rw [wdtn_length] at hi
    have := wdtn_getD (preNotes geo route) i (by omega)
    rw [this]
    show ∃ k : ℤ, (if i + 1 < (preNotes geo route).length then
      some (((preNotes geo route).getD (i + 1) defaultNote).position -
        ((preNotes geo route).getD i defaultNote).position) else none) = some (10 * k)
    rw [if_pos (by omega)]
    obtain ⟨k1, hk1⟩ := hfront (i + 1) (by omega)
    obtain ⟨k0, hk0⟩ := hfront i (by omega)
    exact ⟨k1 - k0, by rw [hk1, hk0]; congr 1; push_cast; ring⟩

/-- **C4 counterexample.** On a straight route of total distance 29, the
output is `[Start, Finish]` with the Finish note at position 29 — not a
multiple of 10 — and the Start note's `distanceToNext` is 29 as well,
refuting the claim that every position and distance-to-next (including the
Finish note's) is a multiple of 10. -/
theorem finish_position_unrounded_counterexample :
    (processRoute geoStraight routeStraight).map (fun n => n.position) = [0, 29] ∧
    ((processRoute geoStraight routeStraight).getD 1 defaultNote).severity =
      .finishLabel ∧
    ((processRoute geoStraight routeStraight).getD 0 defaultNote).distanceToNext =
      some 29 ∧
    ¬∃ k : ℤ, (29 : ℚ) = 10 * k := by
  refine ⟨by decide, by decide, by decide, ?_⟩
  rintro ⟨k, hk⟩
  have h' : (29 : ℤ) = 10 * k := by exact_mod_cast hk
  omega

theorem positions_multiples_of_ten_except_finish_witness :
    ∃ k : ℤ, ((processRoute geoStraight routeStraight).getD 0 defaultNote).position
      = 10 * k :=
  (positions_multiples_of_ten_except_finish geoStraight routeStraight).1 0
    (by decide)

theorem mergeBody_flatten (l : List PaceNote) :
    flattenNotes (mergeBody l) = l := by
  induction l using mergeBody.induct with
  | case1 => rfl
  | case2 n => rfl
  | case3 n1 n2 => rfl
  | case4 n1 n2 n3 rest hm ih => simp [mergeBody, hm, flattenNotes, ih]
  | case5 n1 n2 n3 rest hm ih => simp [mergeBody, hm, flattenNotes, ih]

theorem mergeBody_merged_sound (l : List PaceNote) :
    ∀ a b, NoteOut.merged a b ∈ mergeBody l →
      shouldMergeNotes a b = true ∧
        ∃ l₁ l₂, l = l₁ ++ a :: b :: l₂ ∧ l₂ ≠ [] := by
  induction l using mergeBody.induct with
  | case1 => intro a b h; simp [mergeBody] at h
  | case2 n => intro a b h; simp [mergeBody] at h
  | case3 n1 n2 => intro a b h; simp [mergeBody] at h
  | case4 n1 n2 n3 rest hm ih =>
    intro a b h
    rw [mergeBody, if_pos hm] at h
    rcases List.mem_cons.mp h with heq | htail
    · obtain ⟨rfl, rfl⟩ : n1 = a ∧ n2 = b := by
        injection heq.symm with h1 h2
        exact ⟨h1, h2⟩
      exact ⟨hm, [], n3 :: rest, rfl, by simp⟩
    · obtain ⟨hsm, l₁, l₂, hsplit, hne⟩ := ih a b htail
      exact ⟨hsm, n1 :: n2 :: l₁, l₂, by rw [hsplit]; rfl, hne⟩
  | case5 n1 n2 n3 rest hm ih =>
    intro a b h
    rw [mergeBody, if_neg (by simpa using hm)] at h
    rcases List.mem_cons.mp h with heq | htail
    · exact absurd heq (by simp)
    · obtain ⟨hsm, l₁, l₂, hsplit, hne⟩ := ih a b htail
      exact ⟨hsm, n1 :: l₁, l₂, by rw [hsplit]; rfl, hne⟩

theorem mergeBody_adjacent_singles (l : List PaceNote) :
    ∀ l₁ a b l₂, mergeBody l = l₁ ++ .single a :: .single b :: l₂ →
      l₂ ≠ [] → shouldMergeNotes a b = false := by
  induction l using mergeBody.induct with
  | case1 =>
    intro l₁ a b l₂ h _
    exact absurd (congrArg List.length h) (by simp [mergeBody]; omega)
  | case2 n =>
    intro l₁ a b l₂ h _
    exact absurd (congrArg List.length h) (by simp [mergeBody]; omega)
  | case3 n1 n2 =>
    intro l₁ a b l₂ h hne
    have hlen := congrArg List.length h
    simp [mergeBody] at hlen
    have : l₂ = [] := by
      cases l₂ with
      | nil => rfl
      | cons x xs => simp at hlen; omega
    exact absurd this hne
  | case4 n1 n2 n3 rest hm ih =>
    intro l₁ a b l₂ h hne
    rw [mergeBody, if_pos hm] at h
    cases l₁ with
    | nil => exact absurd (congrArg (List.getD · 0 (.single a)) h) (by simp)
    | cons x l₁' =>
      injection h with hx htail
      exact ih l₁' a b l₂ htail hne
  | case5 n1 n2 n3 rest hm ih =>
    intro l₁ a b l₂ h hne
    have hm' : shouldMergeNotes n1 n2 = false := by simpa using hm
    rw [mergeBody, if_neg (by simpa using hm)] at h
    cases l₁ with
    | nil =>
      injection h with hx htail
      obtain rfl : n1 = a := by injection hx
      have hhead : ∃ t, mergeBody (n2 :: n3 :: rest) = .single n2 :: t := by
        cases hrest : rest with
        | nil => exact ⟨[.single n3], rfl⟩
        | cons r rs =>
          by_cases hm2 : shouldMergeNotes n2 n3 = true
          · exfalso
            rw [hrest] at htail
            rw [show mergeBody (n2 :: n3 :: r :: rs) =
                .merged n2 n3 :: mergeBody (r :: rs) from by
              simp [mergeBody, hm2]] at htail
            simp at htail
          · exact ⟨mergeBody (n3 :: r :: rs), by simp [mergeBody, hm2]⟩
      obtain ⟨t, ht⟩ := hhead
      rw [ht] at htail
      injection htail with hb _
      obtain rfl : n2 = b := by injection hb
      exact hm'
    | cons x l₁' =>
      injection h with hx htail
      exact ih l₁' a b l₂ htail hne

/-- **C3 (spec-modelled).** For a note list `Start :: mid ++ [Finish]`, the
chicane merger (i) only produces compound notes from adjacent pairs of
`mid` (never the Start or Finish note) that satisfy the four merge
conditions — within 40 units, numeric severities both ≠ 1, severity gap at
most 3, both directed; (ii) covers every input note exactly once in order,
so no note belongs to two merges and no chain exceeds two; (iii) leaves no
adjacent surviving pair (other than pairs flanking the Start or Finish
note) that satisfies the merge conditions. -/
theorem chicane_merging_rules (s f : PaceNote) (mid : List PaceNote) :
    (∀ a b, NoteOut.merged a b ∈ mergeChicanes (s :: mid ++ [f]) →
      (|b.position - a.position| ≤ 40 ∧
        severityNumeric a.severity ≠ 1 ∧ severityNumeric b.severity ≠ 1 ∧
        |severityNumeric a.severity - severityNumeric b.severity| ≤ 3 ∧
        a.direction.isSome ∧ b.direction.isSome) ∧
      ∃ l₁ l₂, mid = l₁ ++ a :: b :: l₂) ∧
    flattenNotes (mergeChicanes (s :: mid ++ [f])) = s :: mid ++ [f] ∧
    (∀ l₁ a b l₂, mergeChicanes (s :: mid ++ [f]) =
        l₁ ++ .single a :: .single b :: l₂ →
      l₁ ≠ [] → l₂ ≠ [] → shouldMergeNotes a b = false) := by
  refine ⟨?_, ?_, ?_⟩
  · intro a b hmem
    have hmem' : NoteOut.merged a b ∈ mergeBody (mid ++ [f]) := by
      have : mergeChicanes (s :: mid ++ [f]) = .single s :: mergeBody (mid ++ [f]) := rfl
      rw [this] at hmem
      rcases List.mem_cons.mp hmem with heq | h
      · exact absurd heq (by simp)
      · exact h
    obtain ⟨hsm, l₁, l₂, hsplit, hne⟩ := mergeBody_merged_sound _ a b hmem'
    constructor
    · exact of_decide_eq_true hsm
    · refine ⟨l₁, l₂.dropLast, ?_⟩
      have h1 : (mid ++ [f]).dropLast = mid := List.dropLast_concat
      have h2 : (l₁ ++ a :: b :: l₂).dropLast = l₁ ++ a :: b :: l₂.dropLast := by
        rw [List.dropLast_append_of_ne_nil _ (show (a :: b :: l₂) ≠ [] by simp),
          List.dropLast_cons_of_ne_nil (show (b :: l₂) ≠ [] by simp),
          List.dropLast_cons_of_ne_nil hne]
      rw [← h1, hsplit, h2]
  · show s :: flattenNotes (mergeBody (mid ++ [f])) = _
    rw [mergeBody_flatten]
    rfl
  · intro l₁ a b l₂ h hne1 hne2
    cases l₁ with
    | nil => exact absurd rfl hne1
    | cons x l₁' =>
      have hcons : NoteOut.single s :: mergeBody (mid ++ [f]) =
          x :: (l₁' ++ .single a :: .single b :: l₂) := h
      injection hcons with _ ht
      exact mergeBody_adjacent_singles _ l₁' a b l₂ ht hne2

theorem chicane_merging_rules_witness :
    (|witnessNoteB.position - witnessNoteA.position| ≤ 40 ∧
      severityNumeric witnessNoteA.severity ≠ 1 ∧
      severityNumeric witnessNoteB.severity ≠ 1 ∧
      |severityNumeric witnessNoteA.severity -
        severityNumeric witnessNoteB.severity| ≤ 3 ∧
      witnessNoteA.direction.isSome ∧ witnessNoteB.direction.isSome) ∧
    ∃ l₁ l₂, [witnessNoteA, witnessNoteB] = l₁ ++ witnessNoteA :: witnessNoteB :: l₂ :=
  (chicane_merging_rules createStartNote (createFinishNote 500)
    [witnessNoteA, witnessNoteB]).1 witnessNoteA witnessNoteB (by decide)

/-- **C5 counterexample**, exhibiting two independent failure modes of the
claimed monotonicity.  First part, rounding past the finish: on `routeC5`
the instant sharp turn detected at sample 28 sits at raw distance 56, which
`roundDistance` turns into 60 — past the Finish note's unrounded position
56.3, so the sequence Start@0, corner@60, Finish@56.3 decreases at the
Finish (`distanceToNext = -3.7`).  Second part, deduplication breaking the
sort order with no rounding involved: on `routeC5b` the sorted corners
Left@60, Right@69.6, Left@79.2 are deduplicated by replacing Left@60 *in
place* with the larger-angled Left@79.2, so the deduplicated corner list
itself is out of order and the notes come out Start@0, 80, 70, Finish@93.6
— decreasing between the two corner notes, both of which lie below the
total distance of 93.6.  Both routes are provider-consistent: their
`totalDistance` equals the cumulative distance written into their last
point. -/
theorem note_positions_nondecreasing_counterexample :
    (2 < (processRoute geoC5 routeC5).length ∧
      ((processRoute geoC5 routeC5).getD 2 defaultNote).position <
        ((processRoute geoC5 routeC5).getD 1 defaultNote).position ∧
      routeC5.totalDistance =
        (((annotatedPoints geoC5 routeC5).getLast?.bind
          (fun p => p.distance)).getD 0)) ∧
    (3 < (processRoute geoC5b routeC5b).length ∧
      ((processRoute geoC5b routeC5b).getD 2 defaultNote).position <
        ((processRoute geoC5b routeC5b).getD 1 defaultNote).position ∧
      ((processRoute geoC5b routeC5b).getD 1 defaultNote).position ≤
        routeC5b.totalDistance ∧
      ((uniqueCornersOf geoC5b routeC5b).getD 1 defaultCorner).position <
        ((uniqueCornersOf geoC5b routeC5b).getD 0 defaultCorner).position ∧
      routeC5b.totalDistance =
        (((annotatedPoints geoC5b routeC5b).getLast?.bind
          (fun p => p.distance)).getD 0)) := by
  decide

/-- `calculateDistancesToNext` does not touch any note's position. -/
theorem wdtn_map_position (l : List PaceNote) :
    (withDistancesToNext l).map (fun n => n.position) =
      l.map (fun n => n.position) := by
  induction l with
  | nil => rfl
  | cons n rest ih =>
    cases rest with
    | nil => rfl
    | cons m rest2 =>
      show ({ n with distanceToNext := some (m.position - n.position) } ::
        withDistancesToNext (m :: rest2)).map (fun x => x.position) =
        (n :: m :: rest2).map (fun x => x.position)
      simp only [List.map_cons]
      rw [ih]
      rfl

/-- Rounding to the nearest 10 is monotone. -/
theorem roundDistance_mono {d e : ℚ} (h : d ≤ e) :
    roundDistance d ≤ roundDistance e := by
  unfold roundDistance
  have h2 : (⌊d / 10 + 1 / 2⌋ : ℤ) ≤ ⌊e / 10 + 1 / 2⌋ :=
    Int.floor_le_floor (by linarith)
  have h3 : ((⌊d / 10 + 1 / 2⌋ : ℤ) : ℚ) ≤ ((⌊e / 10 + 1 / 2⌋ : ℤ) : ℚ) := by
    exact_mod_cast h2
  linarith

/-- Rounding to the nearest 10 keeps non-negative distances non-negative. -/
theorem roundDistance_nonneg {d : ℚ} (h : 0 ≤ d) : 0 ≤ roundDistance d := by
  have h1 : roundDistance 0 = 0 := by
    unfold roundDistance
    norm_num
  have h2 := roundDistance_mono h
  rw [h1] at h2
  exact h2

/-- Every point produced by the interpolation loop carries a non-negative
distance when the running distance starts non-negative and the geometry's
distances are non-negative. -/
theorem interpGo_distance_nonneg (geo : Geo) (hd : ∀ p q, 0 ≤ geo.dist p q) :
    ∀ (l : List RoutePoint) (cum : ℚ), 0 ≤ cum →
      ∀ p ∈ interpGo geo cum l, ∀ d, p.distance = some d → 0 ≤ d := by
  intro l
  induction l with
  | nil => intro cum _ p hp; simp [interpGo] at hp
  | cons cur rest ih =>
    cases rest with
    | nil => intro cum _ p hp; simp [interpGo] at hp
    | cons next rest2 =>
      intro cum hcum p hp d hpd
      simp only [interpGo] at hp
      rcases List.mem_append.mp hp with h | h
      · rcases List.mem_cons.mp h with rfl | h2
        · injection hpd with h'
          rw [← h']
          exact hcum
        · rcases List.mem_map.mp h2 with ⟨j, hj, rfl⟩
          injection hpd with h'
          rw [← h']
          rcases List.mem_flatMap.mp hj with ⟨a, ha, hpa⟩
          simp only [List.pure_def, List.mem_singleton] at hpa
          subst hpa
          have hj0 : (0 : ℚ) ≤ (a : ℚ) := Nat.cast_nonneg a
          linarith
      · exact ih (cum + geo.dist cur.coord next.coord)
          (add_nonneg hcum (hd _ _)) p h d hpd

/-- Every resampled point carries a non-negative distance when the
geometry's distances are non-negative. -/
theorem interpolatePoints_distance_nonneg (geo : Geo)
    (hd : ∀ p q, 0 ≤ geo.dist p q) (pts : List RoutePoint) :
    ∀ p ∈ interpolatePoints geo pts, ∀ d, p.distance = some d → 0 ≤ d := by
  intro p hp d hpd
  unfold interpolatePoints at hp
  dsimp only at hp
  split at hp
  next lastP heq =>
    rcases List.mem_append.mp hp with h | h
    · exact interpGo_distance_nonneg geo hd pts 0 le_rfl p h d hpd
    · rw [List.mem_singleton] at h
      subst h
      injection hpd with h'
      rw [← h']
      rcases hgl : (interpGo geo 0 pts).getLast? with _ | q
      · exact le_rfl
      · have hq : q ∈ interpGo geo 0 pts := by
          rcases List.mem_getLast?_eq_getLast
              (show q ∈ (interpGo geo 0 pts).getLast? from hgl) with ⟨hne, rfl⟩
          exact List.getLast_mem hne
        rcases hqd : q.distance with _ | dq
        · simp [hqd]
        · simpa [hqd] using
            interpGo_distance_nonneg geo hd pts 0 le_rfl q hq dq hqd
  next heq => exact interpGo_distance_nonneg geo hd pts 0 le_rfl p hp d hpd

/-- The defaulted distance lookup the corner builders use is non-negative
on a point list whose distances are non-negative. -/
theorem getPt_distance_nonneg (l : List RoutePoint)
    (h : ∀ p ∈ l, ∀ d, p.distance = some d → 0 ≤ d) (i : ℕ) :
    0 ≤ ((getPt l i).distance.getD 0) := by
  unfold getPt
  rcases lt_or_le i l.length with hi | hi
  · have hmem : l.getD i ⟨0, 0, none, none⟩ ∈ l := by
      rw [List.getD_eq_getElem?_getD, List.getElem?_eq_getElem hi]
      exact List.getElem_mem _
    rcases hdq : (l.getD i ⟨0, 0, none, none⟩).distance with _ | dq
    · simp [hdq]
    · simpa [hdq] using h _ hmem dq hdq
  · rw [List.getD_eq_getElem?_getD, List.getElem?_eq_none hi]
    exact le_rfl

/-- A corner registered by the significance check carries a non-negative
position: its position is a defaulted distance lookup. -/
theorem cornerIfSignificant_position_nonneg (data : List Sample)
    (points : List RoutePoint)
    (hpt : ∀ i, 0 ≤ ((getPt points i).distance.getD 0))
    (cs ce : ℕ) (ta ar : ℚ) (dir : Direction) (c : Corner)
    (h : cornerIfSignificant data points cs ce ta ar dir = some c) :
    0 ≤ c.position := by
  unfold cornerIfSignificant at h
  dsimp only at h
  repeat' split at h
  all_goals
    first
    | (injection h with h'
       rw [← h']
       exact hpt _)
    | injection h

/-- The end-of-route flush only adds corners with non-negative positions. -/
theorem identifyFlush_position_nonneg (data : List Sample)
    (points : List RoutePoint)
    (hpt : ∀ i, 0 ≤ ((getPt points i).distance.getD 0)) :
    ∀ (st : Option CornerState) (acc : List Corner),
      (∀ c ∈ acc, 0 ≤ c.position) →
      ∀ c ∈ identifyFlush data points st acc, 0 ≤ c.position := by
  intro st acc hacc c hc
  rcases st with _ | ⟨cs, cr, bs⟩
  · exact hacc c hc
  · unfold identifyFlush at hc
    dsimp only at hc
    split at hc
    · split at hc
      next c' heq =>
        rcases List.mem_append.mp hc with h | h
        · exact hacc c h
        · rw [List.mem_singleton] at h
          subst h
          exact cornerIfSignificant_position_nonneg data points hpt _ _ _ _ _ _ heq
      next => exact hacc c hc
    · exact hacc c hc

/-- Every corner the sustained-corner state machine produces has a
non-negative position. -/
theorem identifyGo_position_nonneg (data : List Sample)
    (points : List RoutePoint)
    (hpt : ∀ i, 0 ≤ ((getPt points i).distance.getD 0)) :
    ∀ (fuel i : ℕ) (st : Option CornerState) (acc : List Corner),
      (∀ c ∈ acc, 0 ≤ c.position) →
      ∀ c ∈ identifyGo data points fuel i st acc, 0 ≤ c.position := by
  intro fuel
  induction fuel with
  | zero =>
    intro i st acc hacc c hc
    exact identifyFlush_position_nonneg data points hpt st acc hacc c hc
  | succ fuel ih =>
    intro i st acc hacc c hc
    simp only [identifyGo] at hc
    repeat' split at hc
    any_goals exact identifyFlush_position_nonneg data points hpt _ _ hacc c hc
    any_goals exact ih _ _ _ hacc c hc
    all_goals
      rename_i c' heq
      refine ih _ _ _ ?_ c hc
      intro x hx
      rcases List.mem_append.mp hx with h' | h'
      · exact hacc x h'
      · rw [List.mem_singleton] at h'
        subst h'
        exact cornerIfSignificant_position_nonneg data points hpt _ _ _ _ _ _ heq

/-- Every corner the instant-turn scan produces has a non-negative
position. -/
theorem detectGo_position_nonneg (data : List Sample)
    (points : List RoutePoint)
    (hpt : ∀ i, 0 ≤ ((getPt points i).distance.getD 0)) :
    ∀ (fuel i : ℕ) (acc : List Corner),
      (∀ c ∈ acc, 0 ≤ c.position) →
      ∀ c ∈ detectGo data points fuel i acc, 0 ≤ c.position := by
  intro fuel
  induction fuel with
  | zero => intro i acc hacc c hc; exact hacc c hc
  | succ fuel ih =>
    intro i acc hacc c hc
    simp only [detectGo] at hc
    split at hc
    · split at hc
      · refine ih _ _ ?_ c hc
        intro x hx
        rcases List.mem_append.mp hx with h | h
        · exact hacc x h
        · rw [List.mem_singleton] at h
          subst h
          exact hpt _
      · exact ih _ _ hacc c hc
    · exact hacc c hc

/-- Stable insertion adds no element but the inserted one. -/
theorem insertByPosition_subset (c : Corner) :
    ∀ (l : List Corner) (x : Corner), x ∈ insertByPosition c l → x = c ∨ x ∈ l := by
  intro l
  induction l with
  | nil =>
    intro x hx
    simp only [insertByPosition, List.mem_singleton] at hx
    exact Or.inl hx
  | cons y ys ih =>
    intro x hx
    simp only [insertByPosition] at hx
    split at hx
    · rcases List.mem_cons.mp hx with rfl | h2
      · exact Or.inr (List.mem_cons_self _ _)
      · rcases ih x h2 with h3 | h3
        · exact Or.inl h3
        · exact Or.inr (List.mem_cons_of_mem _ h3)
    · rcases List.mem_cons.mp hx with rfl | h2
      · exact Or.inl rfl
      · exact Or.inr h2

/-- The position sort adds no corner of its own. -/
theorem sortByPosition_subset (l : List Corner) :
    ∀ x ∈ sortByPosition l, x ∈ l := by
  suffices h : ∀ (rest acc : List Corner), (∀ x ∈ acc, x ∈ l) →
      (∀ c ∈ rest, c ∈ l) →
      ∀ x ∈ rest.foldl (fun acc c => insertByPosition c acc) acc, x ∈ l by
    intro x hx
    unfold sortByPosition at hx
    exact h l [] (by simp) (fun c hc => hc) x hx
  intro rest
  induction rest with
  | nil =>
    intro acc hacc _ x hx
    simp only [List.foldl_nil] at hx
    exact hacc x hx
  | cons c rest ih =>
    intro acc hacc hrest x hx
    simp only [List.foldl_cons] at hx
    refine ih (insertByPosition c acc) ?_
      (fun c' h' => hrest c' (List.mem_cons_of_mem _ h')) x hx
    intro y hy
    rcases insertByPosition_subset c acc y hy with h2 | h2
    · exact h2 ▸ hrest c (List.mem_cons_self _ _)
    · exact hacc y h2

/-- Deduplication adds no corner of its own: replacement inserts the
incoming corner, which is itself a member of the processed list. -/
theorem removeDuplicateCorners_subset (l : List Corner) :
    ∀ x ∈ removeDuplicateCorners l, x ∈ l := by
  suffices h : ∀ (rest acc : List Corner), (∀ x ∈ acc, x ∈ l) →
      (∀ c ∈ rest, c ∈ l) →
      ∀ x ∈ rest.foldl (fun unique corner =>
        if unique.any (isDupOf corner) then
          match unique.findIdx? (isDupOf corner) with
          | some j =>
            let ex := unique.getD j defaultCorner
            if ex.totalAngle < corner.totalAngle ∨
                corner.avgRadius < ex.avgRadius then
              unique.set j corner
            else unique
          | none => unique
        else unique ++ [corner]) acc, x ∈ l by
    intro x hx
    unfold removeDuplicateCorners at hx
    exact h l [] (by simp) (fun c hc => hc) x hx
  intro rest
  induction rest with
  | nil =>
    intro acc hacc _ x hx
    simp only [List.foldl_nil] at hx
    exact hacc x hx
  | cons c rest ih =>
    intro acc hacc hrest x hx
    simp only [List.foldl_cons] at hx
    refine ih _ ?_ (fun c' h' => hrest c' (List.mem_cons_of_mem _ h')) x hx
    intro y hy
    split at hy
    · split at hy
      next j heq =>
        split at hy
        · rcases List.mem_or_eq_of_mem_set hy with h2 | h2
          · exact hacc y h2
          · exact h2 ▸ hrest c (List.mem_cons_self _ _)
        · exact hacc y hy
      next => exact hacc y hy
    · rcases List.mem_append.mp hy with h2 | h2
      · exact hacc y h2
      · rw [List.mem_singleton] at h2
        exact h2 ▸ hrest c (List.mem_cons_self _ _)

/-- Every deduplicated corner of a route has a non-negative position when
the geometry's distances are non-negative: corner positions are defaulted
distance lookups into the resampled points, and sorting and deduplication
only keep such corners. -/
theorem uniqueCorners_position_nonneg (geo : Geo) (route : Route)
    (hd : ∀ p q, 0 ≤ geo.dist p q) :
    ∀ c ∈ uniqueCornersOf geo route, 0 ≤ c.position := by
  have hpts : ∀ p ∈ interpolatedOf geo route, ∀ d, p.distance = some d → 0 ≤ d := by
    unfold interpolatedOf
    exact interpolatePoints_distance_nonneg geo hd (annotatedPoints geo route)
  have hpt : ∀ i, 0 ≤ ((getPt (interpolatedOf geo route) i).distance.getD 0) :=
    fun i => getPt_distance_nonneg _ hpts i
  intro c hc
  unfold uniqueCornersOf at hc
  have hc2 := removeDuplicateCorners_subset _ c hc
  unfold allCornersSorted at hc2
  have hc3 := sortByPosition_subset _ c hc2
  rcases List.mem_append.mp hc3 with h | h
  · unfold identifySignificantCorners at h
    exact identifyGo_position_nonneg _ _ hpt _ _ _ _ (by simp) c h
  · unfold detectInstantSharpTurns at h
    exact detectGo_position_nonneg _ _ hpt _ _ _ (by simp) c h

/-- The assembled front notes have non-negative positions when the
deduplicated corners do. -/
theorem frontNotes_position_nonneg (geo : Geo) (route : Route)
    (hpos : ∀ c ∈ uniqueCornersOf geo route, 0 ≤ c.position) :
    ∀ n ∈ frontNotes geo route, 0 ≤ n.position := by
  intro n hn
  unfold frontNotes at hn
  rcases huq : uniqueCornersOf geo route with _ | ⟨c, rest⟩ <;>
    rw [huq] at hn
  · simp at hn
    subst hn
    exact le_rfl
  · dsimp only at hn
    have hmem : ∀ (L : List Corner), (∀ x ∈ L, x ∈ c :: rest) →
        n ∈ L.filterMap
          (fun c' => analyzeCorner geo c' (interpolatedOf geo route)) →
        0 ≤ n.position := by
      intro L hsub hL
      rcases List.mem_filterMap.mp hL with ⟨c', hc'L, hc'⟩
      rw [analyzeCorner_position geo c' _ n hc']
      refine roundDistance_nonneg (hpos c' ?_)
      rw [huq]
      exact hsub c' hc'L
    split at hn
    · split at hn
      next n0 heq =>
        rcases List.mem_cons.mp hn with rfl | htail
        · exact le_rfl
        · exact hmem rest (fun x hx => List.mem_cons_of_mem c hx) htail
      next =>
        rcases List.mem_cons.mp hn with rfl | htail
        · exact le_rfl
        · exact hmem (c :: rest) (fun x hx => hx) htail
    · rcases List.mem_cons.mp hn with rfl | htail
      · exact le_rfl
      · exact hmem (c :: rest) (fun x hx => hx) htail

/-- The front note list is never empty and always begins at position 0:
either with the generic start note, or with the first corner's note moved
to position 0. -/
theorem frontNotes_ne_nil_head_position (geo : Geo) (route : Route) :
    frontNotes geo route ≠ [] ∧
    ((frontNotes geo route).getD 0 defaultNote).position = 0 := by
  unfold frontNotes
  rcases huq : uniqueCornersOf geo route with _ | ⟨c, rest⟩ <;>
    (try dsimp only)
  · exact ⟨by simp, rfl⟩
  · split
    · split
      next n0 heq => exact ⟨by simp, rfl⟩
      next => exact ⟨by simp, rfl⟩
    · exact ⟨by simp, rfl⟩

/-- **C5 (amended).**  For every geometry whose point-to-point distances
are non-negative (as `turf.distance`'s are) and every route with a
non-negative total distance, the note positions returned by `processRoute`
are all non-negative, and the sequence begins with the Start note at
position 0.  The positions are *not* non-decreasing in general: a corner
note close to the finish can be rounded past the Finish note's unrounded
position, and `removeDuplicateCorners` can replace an early corner of the
sorted list in place with a later one, reordering the notes with no
rounding involved — `note_positions_nondecreasing_counterexample` exhibits
both failure modes. -/
theorem note_positions_nonneg_start_zero (geo : Geo) (route : Route)
    (hd : ∀ p q, 0 ≤ geo.dist p q)
    (h0 : 0 ≤ route.totalDistance) :
    (∀ n ∈ processRoute geo route, 0 ≤ n.position) ∧
    (processRoute geo route ≠ [] →
      ((processRoute geo route).getD 0 defaultNote).position = 0) := by
  have hpos := uniqueCorners_position_nonneg geo route hd
  have hfr := frontNotes_position_nonneg geo route hpos
  obtain ⟨hfne, hfh⟩ := frontNotes_ne_nil_head_position geo route
  unfold processRoute
  by_cases h2 : route.points.length < 2
  · rw [if_pos h2]
    exact ⟨by intro n hn; simp at hn, fun hne => absurd rfl hne⟩
  rw [if_neg h2]
  by_cases h10 : (interpolatedOf geo route).length < 10
  · rw [if_pos h10]
    exact ⟨by intro n hn; simp at hn, fun hne => absurd rfl hne⟩
  rw [if_neg h10]
  have hpre_mem : ∀ n ∈ preNotes geo route, 0 ≤ n.position := by
    unfold preNotes
    intro n hn
    rcases List.mem_append.mp hn with h | h
    · exact hfr n h
    · simp at h
      subst h
      exact h0
  constructor
  · intro n hn
    have hmemp : n.position ∈
        (withDistancesToNext (preNotes geo route)).map (fun x => x.position) :=
      List.mem_map_of_mem _ hn
    rw [wdtn_map_position] at hmemp
    rcases List.mem_map.mp hmemp with ⟨m, hm, hmp⟩
    rw [← hmp]
    exact hpre_mem m hm
  · intro _
    have hlen : 0 < (preNotes geo route).length := by
      unfold preNotes
      rw [List.length_append]
      simp
    rw [wdtn_getD (preNotes geo route) 0 hlen]
    show ((preNotes geo route).getD 0 defaultNote).position = 0
    have hflen : 0 < (frontNotes geo route).length := List.length_pos.mpr hfne
    unfold preNotes
    rw [List.getD_eq_getElem?_getD, List.getElem?_append, if_pos hflen,
      ← List.getD_eq_getElem?_getD]
    exact hfh

/-- Witness for the amended C5 on `routeC5b`, whose output holds four notes
(two of them corner notes): all positions are non-negative and the sequence
begins at 0; the distance hypothesis is discharged for the concrete
geometry. -/
theorem note_positions_nonneg_start_zero_witness :
    (∀ n ∈ processRoute geoC5b routeC5b, 0 ≤ n.position) ∧
    (processRoute geoC5b routeC5b ≠ [] →
      ((processRoute geoC5b routeC5b).getD 0 defaultNote).position = 0) :=
  note_positions_nonneg_start_zero geoC5b routeC5b
    (by
      intro p q
      show (0 : ℚ) ≤ geoC5b.dist p q
      have hm : min p.1 q.1 ≤ max p.1 q.1 := min_le_max
      simp only [geoC5b]
      split
      · norm_num
      · have h12 : (0 : ℚ) ≤ 12 * (max p.1 q.1 - min p.1 q.1) := by linarith
        exact div_nonneg h12 (by norm_num))
    (by norm_num [routeC5b])

end RouteProcessor
